import Mathlib

/-!
# Real-Time Analytics Dashboard: stream buffer, sample generator and streaming timer

A shallow embedding of the logic of `src/App.js` (the component
`RealtimeAnalyticsDashboard`) together with the properties of its rolling
buffer, its synthetic samples, its chart window and its interval timer.

Numbers are JavaScript numbers in the source.  Timestamps are integers
(`Date.now()`), modelled by `ℤ`.  The other numbers are modelled in an
arbitrary linearly ordered field `α` with a floor function (`ℚ` for
evaluation, `ℝ` for the trigonometric functions).  The fields of a sample are
computed exactly; the counters are updated with the rounding of double
arithmetic (`toDouble`), on which their bounds depend.  `Math.random()` and
`Date.now()` are modelled by oracles giving the result of the k-th call,
`Math.sin` and `Math.cos` by function parameters.
-/

namespace Dashboard

/-! ## Arrays -/

/-- JavaScript `xs.slice(start)` with the end index omitted: a negative
`start` counts from the end of the array, and the index is clamped to
`0 .. xs.length`. -/
def jsSlice {β : Type} (xs : List β) (start : ℤ) : List β :=
  let len : ℤ := xs.length
  let k : ℤ := if start < 0 then max (len + start) 0 else min start len
  xs.drop k.toNat

/-- The state updater of the streaming tick,
`prev => [...prev.slice(-999), newPoint]`. -/
def appendPoint {β : Type} (prev : List β) (newPoint : β) : List β :=
  jsSlice prev (-999) ++ [newPoint]

/-- Appending the samples of `s` one at a time, first to last, starting from
the buffer `b`. -/
def appendAll {β : Type} (b : List β) (s : List β) : List β :=
  s.foldl appendPoint b

/-- The last `k` elements of `xs`, in their original order (all of `xs` when
it has fewer than `k` elements).  This is the wording of the specification,
not code of the program. -/
def lastN {β : Type} (k : ℕ) (xs : List β) : List β :=
  xs.drop (xs.length - k)


/-! ## Samples -/

/-- One metric observation, the object literal pushed by `generateInitialData`
and built as `newPoint` by the streaming tick. -/
structure Sample (α : Type) where
  timestamp : ℤ
  users : α
  revenue : α
  connections : α
  throughput : α
  errors : α
  responseTime : α

/-- The host functions read by one run of the interval callback:
`random k` is the result of the k-th call of `Math.random()` of that run,
`now k` the result of its k-th call of `Date.now()` (both counted from 0),
`sin` and `cos` stand for `Math.sin` and `Math.cos`. -/
structure Host (α : Type) where
  random : ℕ → α
  now : ℕ → ℤ
  sin : α → α
  cos : α → α

/-- `Math.floor`, with the integer result read back as a number. -/
def mathFloor {α : Type} [LinearOrderedField α] [FloorRing α] (x : α) : α := ((⌊x⌋ : ℤ) : α)

/-- The object pushed by iteration `i` of the loop of `generateInitialData`;
the iteration calls `Math.random()` six times, in the order of the fields. -/
def seedPoint {α : Type} [LinearOrderedField α] [FloorRing α] (now : ℤ) (random : ℕ → α) (i : ℕ) : Sample α :=
  { timestamp := now - (1000 - (i : ℤ)) * 60000
    users := mathFloor (random (6 * i) * 1000) + 500
    revenue := random (6 * i + 1) * 5000 + 1000
    connections := mathFloor (random (6 * i + 2) * 200) + 100
    throughput := mathFloor (random (6 * i + 3) * 1000) + 500
    errors := mathFloor (random (6 * i + 4) * 10)
    responseTime := random (6 * i + 5) * 200 + 50 }

/-- The seed: `generateInitialData`, with `now` the value of its single
`Date.now()` and the loop `for (let i = 0; i < 1000; i++) data.push(...)`. -/
def generateInitialData {α : Type} [LinearOrderedField α] [FloorRing α] (now : ℤ)
    (random : ℕ → α) : List (Sample α) :=
  (List.range 1000).map (seedPoint now random)

/-- The object `newPoint` built by the interval callback. -/
def newPoint {α : Type} [LinearOrderedField α] [FloorRing α] (h : Host α) : Sample α :=
  { timestamp := h.now 0
    users := mathFloor (h.random 0 * 1000) + 500 + h.sin ((h.now 1 : α) / 10000) * 200
    revenue := h.random 1 * 5000 + 1000 + h.cos ((h.now 2 : α) / 15000) * 1000
    connections := mathFloor (h.random 2 * 200) + 100 + h.sin ((h.now 3 : α) / 8000) * 50
    throughput := mathFloor (h.random 3 * 1000) + 500 + h.cos ((h.now 4 : α) / 12000) * 300
    errors := mathFloor (h.random 4 * 10)
    responseTime := h.random 5 * 200 + 50 + h.sin ((h.now 5 : α) / 5000) * 30 }

/-- A number that is an integer. -/
def IsInteger {α : Type} [LinearOrderedField α] (x : α) : Prop := ∃ n : ℤ, x = (n : α)

/-- Every numeric field of the sample is non-negative, and `errors` is an
integer of `[0, 10)`. -/
def Sample.InRange {α : Type} [LinearOrderedField α] (p : Sample α) : Prop :=
  0 ≤ p.users ∧ 0 ≤ p.revenue ∧ 0 ≤ p.connections ∧ 0 ≤ p.throughput ∧
    0 ≤ p.errors ∧ 0 ≤ p.responseTime ∧
    ∃ n : ℤ, p.errors = (n : α) ∧ 0 ≤ n ∧ n < 10

/-! ## Double-precision arithmetic -/

/-- The integer nearest to `t`, the even one when `t` is halfway between two
integers. -/
def roundHalfEven {α : Type} [LinearOrderedField α] [FloorRing α] (t : α) : ℤ :=
  if t - (⌊t⌋ : α) < 1 / 2 then ⌊t⌋
  else if 1 / 2 < t - (⌊t⌋ : α) then ⌊t⌋ + 1
  else if ⌊t⌋ % 2 = 0 then ⌊t⌋ else ⌊t⌋ + 1

/-- The exponent of the spacing of the doubles around `x`: 52 binary places
below the binade of `x`, and `-1074` in the subnormal range below
`2 ^ (-1022)`. -/
def ulpExponent {α : Type} [LinearOrderedField α] [FloorRing α] (x : α) : ℤ :=
  max (Int.log 2 |x|) (-1022) - 52

/-- The result of a JavaScript arithmetic operation whose exact value is `x`:
the nearest double, ties going to the even significand (IEEE 754 binary64,
round to nearest even).  Values of magnitude `2 ^ 1024` or more, which
JavaScript turns into an infinity, are outside the model. -/
def toDouble {α : Type} [LinearOrderedField α] [FloorRing α] (x : α) : α :=
  (roundHalfEven (x / 2 ^ ulpExponent x) : α) * 2 ^ ulpExponent x

/-- The number `x` is a finite double. -/
def IsDouble {α : Type} [LinearOrderedField α] [FloorRing α] (x : α) : Prop :=
  toDouble x = x ∧ |x| < 2 ^ (1024 : ℕ)

/-! ## Counters -/

/-- The `metrics` state. -/
structure Metrics (α : Type) where
  totalUsers : α
  revenue : α
  activeConnections : α
  throughput : α

/-- The initial value given to `useState` for `metrics`. -/
def initialMetrics {α : Type} [LinearOrderedField α] : Metrics α :=
  { totalUsers := 1247832
    revenue := 178865 / 2
    activeConnections := 15647
    throughput := 2341 }

/-- The updater passed to `setMetrics` by the interval callback; its two
calls of `Math.random()` follow the six of `newPoint`.  The sums and products
are those of doubles: each operation is rounded, left to right. -/
def updateMetrics {α : Type} [LinearOrderedField α] [FloorRing α] (h : Host α)
    (newPoint : Sample α) (prev : Metrics α) : Metrics α :=
  { totalUsers :=
      toDouble (toDouble (prev.totalUsers + mathFloor (toDouble (h.random 6 * 10))) - 5)
    revenue := toDouble (toDouble (prev.revenue + toDouble (h.random 7 * 100)) - 50)
    activeConnections := newPoint.connections
    throughput := newPoint.throughput }

/-! ## Chart window -/

/-- A row of `chartData`: `{...point, time: ...}`. -/
structure ChartRow (α : Type) extends Sample α where
  time : String

/-- The count chosen by `chartData` for the selected timeframe. -/
def timeframeCount (selectedTimeframe : String) : ℤ :=
  if selectedTimeframe = "1h" then 60 else if selectedTimeframe = "6h" then 360 else 1440

/-- The body of `chartData` for a given count:
`dataPoints.slice(-count).map(...)`, each point being spread into a new object
with the added field `time`, and the empty array when `dataPoints` is empty;
`fmt` stands for `t => new Date(t).toLocaleTimeString()`. -/
def window {α : Type} (fmt : ℤ → String) (count : ℤ) (dataPoints : List (Sample α)) :
    List (ChartRow α) :=
  if dataPoints.length = 0 then []
  else (jsSlice dataPoints (-count)).map (fun point => { toSample := point, time := fmt point.timestamp })

/-- The memoised `chartData`. -/
def chartData {α : Type} (fmt : ℤ → String) (dataPoints : List (Sample α))
    (selectedTimeframe : String) : List (ChartRow α) :=
  window fmt (timeframeCount selectedTimeframe) dataPoints

/-! ## The component as a state machine -/

/-- The state of the component and of the host's interval timers:
`streamingRef` is `streamingRef.current` (`none` for `null`), `timers` the ids
of the interval timers that are live, `nextId` the id that the next
`setInterval` returns. -/
structure State (α : Type) where
  isStreaming : Bool
  streamingRef : Option ℕ
  timers : List ℕ
  nextId : ℕ
  dataPoints : List (Sample α)
  metrics : Metrics α

/-- `clearInterval(handle)`: cancels the timer with that id, if there is one. -/
def clearInterval (handle : Option ℕ) (timers : List ℕ) : List ℕ :=
  match handle with
  | none => timers
  | some id => timers.filter (fun t => t ≠ id)

/-- The values given to `useState` and `useRef`, before any effect has run. -/
def initialState {α : Type} [LinearOrderedField α] : State α :=
  { isStreaming := false
    streamingRef := none
    timers := []
    nextId := 1
    dataPoints := []
    metrics := initialMetrics }

/-- The cleanup of the streaming effect, `() => clearInterval(streamingRef.current)`. -/
def effectCleanup {α : Type} (s : State α) : State α :=
  { s with timers := clearInterval s.streamingRef s.timers }

/-- The body of the streaming effect: `setInterval` when `isStreaming`,
`clearInterval(streamingRef.current)` otherwise. -/
def effectBody {α : Type} (s : State α) : State α :=
  if s.isStreaming then
    { s with streamingRef := some s.nextId, timers := s.nextId :: s.timers, nextId := s.nextId + 1 }
  else
    { s with timers := clearInterval s.streamingRef s.timers }

/-- The effects run after the first render: `setDataPoints(generateInitialData())`
and the body of the streaming effect. -/
def mount {α : Type} [LinearOrderedField α] [FloorRing α] (now : ℤ) (random : ℕ → α) : State α :=
  effectBody { (initialState : State α) with dataPoints := generateInitialData now random }

/-- A click on the Start/Stop button: `setIsStreaming(!isStreaming)`, then the
cleanup of the previous streaming effect and the body of the new one. -/
def toggleStreaming {α : Type} (s : State α) : State α :=
  effectBody (effectCleanup { s with isStreaming := !s.isStreaming })

/-- One run of the interval callback. -/
def tick {α : Type} [LinearOrderedField α] [FloorRing α] (h : Host α) (s : State α) : State α :=
  { s with
    dataPoints := appendPoint s.dataPoints (newPoint h)
    metrics := updateMetrics h (newPoint h) s.metrics }

/-- The events of the machine. -/
inductive Event (α : Type) where
  | toggle : Event α
  | timerFire (id : ℕ) (h : Host α) : Event α

/-- One step; a timer that is not live cannot fire. -/
def step {α : Type} [LinearOrderedField α] [FloorRing α] (s : State α) :
    Event α → Option (State α)
  | Event.toggle => some (toggleStreaming s)
  | Event.timerFire id h => if id ∈ s.timers then some (tick h s) else none

/-- Elapsed time: the timers named in `fires` come due one after the other,
and those that are live at that moment run the callback. -/
def elapse {α : Type} [LinearOrderedField α] [FloorRing α] (s : State α)
    (fires : List (ℕ × Host α)) : State α :=
  fires.foldl (fun st f => (step st (Event.timerFire f.1 f.2)).getD st) s

/-- States after the first render's effects and any number of steps. -/
inductive Running {α : Type} [LinearOrderedField α] [FloorRing α] :
    State α → Prop where
  | mount (now : ℤ) (random : ℕ → α) : Running (mount now random)
  | step {s s1 : State α} (e : Event α) : Running s → step s e = some s1 → Running s1

/-- The reachable states: the initial one and the running ones. -/
def Reachable {α : Type} [LinearOrderedField α] [FloorRing α] (s : State α) : Prop := s = initialState ∨ Running s

/-- Buffers with the clock value of their latest sample: the seed taken at
`now0`, then appends whose clock value is not before the previous one. -/
inductive ChronoReach {α : Type} [LinearOrderedField α] [FloorRing α] :
    ℤ → List (Sample α) → Prop where
  | seed (now0 : ℤ) (random : ℕ → α) : ChronoReach now0 (generateInitialData now0 random)
  | tick {c : ℤ} {b : List (Sample α)} (h : Host α) :
      ChronoReach c b → c ≤ h.now 0 → ChronoReach (h.now 0) (appendPoint b (newPoint h))

/-- The invariant of the running states: while streaming, the only live timer
is the one held by `streamingRef`; otherwise no timer is live; and the buffer
never has more than 1000 samples. -/
def Inv {α : Type} (s : State α) : Prop :=
  (s.isStreaming = true → ∃ id, s.streamingRef = some id ∧ s.timers = [id]) ∧
  (s.isStreaming = false → s.timers = []) ∧
  s.dataPoints.length ≤ 1000

/-! ## Lemmas on slices -/

section SliceLemmas

variable {β : Type}

theorem jsSlice_neg (xs : List β) (c : ℕ) (hc : 0 < c) :
    jsSlice xs (-(c : ℤ)) = lastN c xs := by
  unfold jsSlice lastN
  have h : (-(c : ℤ)) < 0 := by omega
  simp only [h, if_true]
  congr 1
  omega

theorem lastN_length (k : ℕ) (xs : List β) :
    (lastN k xs).length = min k xs.length := by
  unfold lastN
  simp only [List.length_drop]
  omega

theorem lastN_of_length_le (k : ℕ) (xs : List β) (h : xs.length ≤ k) :
    lastN k xs = xs := by
  unfold lastN
  have : xs.length - k = 0 := by omega
  rw [this, List.drop_zero]

theorem lastN_suffix (k : ℕ) (xs : List β) : lastN k xs <:+ xs :=
  List.drop_suffix _ _

theorem lastN_drop_append (k d : ℕ) (xs t : List β)
    (hk : k ≤ xs.length - d + t.length) :
    lastN k (xs.drop d ++ t) = lastN k (xs ++ t) := by
  rcases Nat.lt_or_ge xs.length d with hd | hd
  · have h0 : xs.drop d = [] := List.drop_of_length_le (by omega)
    unfold lastN
    rw [h0, List.nil_append, List.length_append]
    have h1 : xs.length - d = 0 := by omega
    have h2 : xs.length + t.length - k = xs.length + (t.length - k) := by omega
    rw [h2, List.drop_append]
  · unfold lastN
    have h1 : xs.drop d ++ t = (xs ++ t).drop d := by
      rw [List.drop_append_of_le_length hd]
    rw [h1, List.drop_drop]
    congr 1
    simp only [List.length_drop, List.length_append]
    omega

theorem appendPoint_eq (b : List β) (x : β) :
    appendPoint b x = lastN (min 1000 (b.length + 1)) (b ++ [x]) := by
  unfold appendPoint
  have h := jsSlice_neg b 999 (by decide)
  have h' : jsSlice b (-999) = lastN 999 b := by exact_mod_cast h
  rw [h']
  unfold lastN
  rcases Nat.lt_or_ge b.length 999 with hb | hb
  · have e1 : b.length - 999 = 0 := by omega
    have e2 : (b ++ [x]).length - min 1000 (b.length + 1) = 0 := by
      simp only [List.length_append, List.length_singleton]; omega
    rw [e1, e2, List.drop_zero, List.drop_zero]
  · have e2 : (b ++ [x]).length - min 1000 (b.length + 1) = b.length - 999 := by
      simp only [List.length_append, List.length_singleton]; omega
    rw [e2, List.drop_append_of_le_length (by omega)]

theorem appendPoint_length (b : List β) (x : β) :
    (appendPoint b x).length = min 1000 (b.length + 1) := by
  rw [appendPoint_eq, lastN_length]
  simp only [List.length_append, List.length_singleton]
  omega

theorem appendAll_cons (b : List β) (x : β) (s : List β) :
    appendAll b (x :: s) = appendAll (appendPoint b x) s := rfl

theorem appendAll_eq_of_le (s : List β) :
    ∀ b : List β, b.length ≤ 1000 →
      appendAll b s = lastN (min 1000 (b.length + s.length)) (b ++ s) := by
  induction s with
  | nil =>
    intro b hb
    simp only [appendAll, List.foldl_nil, List.append_nil, List.length_nil, Nat.add_zero]
    rw [lastN_of_length_le _ _ (by omega)]
  | cons x s ih =>
    intro b hb
    rw [appendAll_cons, ih _ (by rw [appendPoint_length]; omega), appendPoint_length,
      appendPoint_eq]
    have e : min 1000 (min 1000 (b.length + 1) + s.length)
        = min 1000 (b.length + (x :: s).length) := by
      simp only [List.length_cons]; omega
    rw [e]
    have hk : min 1000 (b.length + (x :: s).length)
        ≤ (b ++ [x]).length - ((b ++ [x]).length - min 1000 (b.length + 1)) + s.length := by
      simp only [List.length_cons, List.length_append, List.length_singleton]; omega
    have h := lastN_drop_append _ _ (b ++ [x]) s hk
    have e2 : b ++ [x] ++ s = b ++ x :: s := by simp
    rw [e2] at h
    exact h

theorem appendAll_length_le (s : List β) (b : List β) (hb : b.length ≤ 1000) :
    (appendAll b s).length ≤ 1000 := by
  rw [appendAll_eq_of_le s b hb, lastN_length]
  omega

theorem appendAll_eq (b s : List β) (h : s ≠ [] ∨ b.length ≤ 1000) :
    appendAll b s = lastN (min 1000 (b.length + s.length)) (b ++ s) := by
  cases s with
  | nil =>
    rcases h with h | h
    · exact absurd rfl h
    · exact appendAll_eq_of_le [] b h
  | cons x s =>
    rw [appendAll_cons, appendAll_eq_of_le s _ (by rw [appendPoint_length]; omega),
      appendPoint_length, appendPoint_eq]
    have e : min 1000 (min 1000 (b.length + 1) + s.length)
        = min 1000 (b.length + (x :: s).length) := by
      simp only [List.length_cons]; omega
    rw [e]
    have hk : min 1000 (b.length + (x :: s).length)
        ≤ (b ++ [x]).length - ((b ++ [x]).length - min 1000 (b.length + 1)) + s.length := by
      simp only [List.length_cons, List.length_append, List.length_singleton]; omega
    have h := lastN_drop_append _ _ (b ++ [x]) s hk
    have e2 : b ++ [x] ++ s = b ++ x :: s := by simp
    rw [e2] at h
    exact h

theorem lastN_min (k : ℕ) (xs : List β) : lastN (min k xs.length) xs = lastN k xs := by
  unfold lastN
  congr 1
  omega

theorem head?_range_succ (n : ℕ) : (List.range (n + 1)).head? = some 0 := by
  rw [List.range_succ_eq_map]; rfl

theorem nodup_range_concat (n : ℕ) : (List.range n ++ [n]).Nodup := by
  rw [← List.range_succ]
  exact List.nodup_range _

theorem appendPoint_full (b : List β) (x : β) (hb : b.length = 1000) :
    appendPoint b x = b.drop 1 ++ [x] := by
  rw [appendPoint_eq]
  unfold lastN
  have e : (b ++ [x]).length - min 1000 (b.length + 1) = 1 := by
    simp only [List.length_append, List.length_singleton]; omega
  rw [e, List.drop_append_of_le_length (by omega)]

end SliceLemmas

/-! ## Lemmas on double-precision rounding -/

theorem two_zpow_pos {α : Type} [LinearOrderedField α] (k : ℤ) : (0 : α) < 2 ^ k := zpow_pos (by norm_num) k

theorem intCast_two_pow_mul {α : Type} [LinearOrderedField α] (n : ℕ) (k : ℤ) :
    (((2 : ℤ) ^ n : ℤ) : α) * 2 ^ k = 2 ^ (k + (n : ℤ)) := by
  rw [zpow_add₀ (by norm_num : (2 : α) ≠ 0), zpow_natCast, Int.cast_pow, Int.cast_ofNat,
    mul_comm]

section RoundingLemmas

variable {α : Type} [LinearOrderedField α] [FloorRing α]

theorem floor_le_roundHalfEven (t : α) : ⌊t⌋ ≤ roundHalfEven t := by
  unfold roundHalfEven
  split_ifs <;> omega

theorem roundHalfEven_le_floor_add_one (t : α) : roundHalfEven t ≤ ⌊t⌋ + 1 := by
  unfold roundHalfEven
  split_ifs <;> omega

theorem roundHalfEven_intCast (n : ℤ) : roundHalfEven (n : α) = n := by
  unfold roundHalfEven
  simp

theorem le_roundHalfEven (t : α) (n : ℤ) (h : (n : α) ≤ t) : n ≤ roundHalfEven t :=
  le_trans (Int.le_floor.2 h) (floor_le_roundHalfEven t)

theorem roundHalfEven_le (t : α) (n : ℤ) (h : t ≤ (n : α)) : roundHalfEven t ≤ n := by
  rcases eq_or_lt_of_le h with h1 | h1
  · rw [h1, roundHalfEven_intCast]
  · have : ⌊t⌋ < n := Int.floor_lt.2 h1
    have := roundHalfEven_le_floor_add_one t
    omega

theorem roundHalfEven_mono {s t : α} (h : s ≤ t) : roundHalfEven s ≤ roundHalfEven t := by
  have hf : ⌊s⌋ ≤ ⌊t⌋ := Int.floor_mono h
  rcases eq_or_lt_of_le hf with h1 | h1
  · unfold roundHalfEven
    rw [h1]
    have hs : s - (⌊t⌋ : α) ≤ t - (⌊t⌋ : α) := by linarith
    split_ifs <;> first | omega | (exfalso; linarith)
  · have a := roundHalfEven_le_floor_add_one s
    have b := floor_le_roundHalfEven t
    omega

theorem roundHalfEven_eq_of_abs_lt (t : α) (n : ℤ) (h : |t - n| < 1 / 2) :
    roundHalfEven t = n := by
  rw [abs_lt] at h
  obtain ⟨h1, h2⟩ := h
  rcases le_or_lt (n : α) t with hn | hn
  · have hf : ⌊t⌋ = n := Int.floor_eq_iff.2 ⟨hn, by linarith⟩
    unfold roundHalfEven
    rw [hf, if_pos (by linarith)]
  · have hf : ⌊t⌋ = n - 1 := Int.floor_eq_iff.2 ⟨by push_cast; linarith, by push_cast; linarith⟩
    unfold roundHalfEven
    rw [hf, if_neg (by push_cast; linarith), if_pos (by push_cast; linarith)]
    omega

theorem roundHalfEven_tie (t : α) (f : ℤ) (h : t = (f : α) + 1 / 2) :
    roundHalfEven t = if f % 2 = 0 then f else f + 1 := by
  have hf : ⌊t⌋ = f := Int.floor_eq_iff.2 ⟨by linarith, by linarith⟩
  unfold roundHalfEven
  rw [hf, if_neg (by linarith), if_neg (by linarith)]

theorem roundHalfEven_neg (t : α) : roundHalfEven (-t) = -roundHalfEven t := by
  have h0 := Int.floor_le t
  have h1 := Int.lt_floor_add_one t
  rcases lt_trichotomy (t - (⌊t⌋ : α)) (1 / 2) with h | h | h
  · have e1 : roundHalfEven t = ⌊t⌋ :=
      roundHalfEven_eq_of_abs_lt t _ (by rw [abs_lt]; constructor <;> linarith)
    rw [e1]
    exact roundHalfEven_eq_of_abs_lt _ _ (by push_cast; rw [abs_lt]; constructor <;> linarith)
  · have ht : t = (⌊t⌋ : α) + 1 / 2 := by linarith
    have hn : -t = ((-⌊t⌋ - 1 : ℤ) : α) + 1 / 2 := by push_cast; linarith
    rw [roundHalfEven_tie (-t) _ hn, roundHalfEven_tie t _ ht]
    split_ifs <;> omega
  · have e1 : roundHalfEven t = ⌊t⌋ + 1 :=
      roundHalfEven_eq_of_abs_lt t _ (by push_cast; rw [abs_lt]; constructor <;> linarith)
    rw [e1]
    exact roundHalfEven_eq_of_abs_lt _ _ (by push_cast; rw [abs_lt]; constructor <;> linarith)

theorem ulpExponent_neg (x : α) : ulpExponent (-x) = ulpExponent x := by
  unfold ulpExponent
  rw [abs_neg]

theorem toDouble_zero : toDouble (0 : α) = 0 := by
  unfold toDouble
  rw [zero_div]
  have h := roundHalfEven_intCast (α := α) 0
  rw [Int.cast_zero] at h
  rw [h, Int.cast_zero, zero_mul]

theorem toDouble_neg (x : α) : toDouble (-x) = -toDouble x := by
  unfold toDouble
  rw [ulpExponent_neg, neg_div, roundHalfEven_neg, Int.cast_neg, neg_mul]

theorem toDouble_nonneg (x : α) (h : 0 ≤ x) : 0 ≤ toDouble x := by
  unfold toDouble
  have hs := two_zpow_pos (α := α) (ulpExponent x)
  have hr : (0 : ℤ) ≤ roundHalfEven (x / 2 ^ ulpExponent x) :=
    le_roundHalfEven _ 0 (by rw [Int.cast_zero]; exact div_nonneg h hs.le)
  exact mul_nonneg (by exact_mod_cast hr) hs.le

theorem log_le_of_lt_zpow (x : α) (hx : 0 < x) (e : ℤ) (h : x < 2 ^ (e + 1)) :
    Int.log 2 x ≤ e := by
  have h2 : x < ((2 : ℕ) : α) ^ (e + 1) := by exact_mod_cast h
  have := (Int.lt_zpow_iff_log_lt (by norm_num : 1 < 2) hx).1 h2
  omega

theorem le_log_of_zpow_le (x : α) (hx : 0 < x) (e : ℤ) (h : 2 ^ e ≤ x) :
    e ≤ Int.log 2 x := by
  have h2 : ((2 : ℕ) : α) ^ e ≤ x := by exact_mod_cast h
  exact (Int.zpow_le_iff_le_log (by norm_num : 1 < 2) hx).1 h2

theorem zpow_log_le (x : α) (hx : 0 < x) : (2 : α) ^ Int.log 2 x ≤ x := by
  have := Int.zpow_log_le_self (R := α) (by norm_num : 1 < 2) hx
  exact_mod_cast this

theorem lt_zpow_log_succ (x : α) : x < (2 : α) ^ (Int.log 2 x + 1) := by
  have := Int.lt_zpow_succ_log_self (R := α) (by norm_num : 1 < 2) x
  exact_mod_cast this

/-- The value is below the top of its binade: `toDouble x ≤ 2 ^ (ulpExponent x + 53)`. -/
theorem toDouble_le_top (x : α) (hx : 0 < x) : toDouble x ≤ 2 ^ (ulpExponent x + 53) := by
  have hs := two_zpow_pos (α := α) (ulpExponent x)
  have h1 : x < 2 ^ (ulpExponent x + 53) := by
    refine lt_of_lt_of_le (lt_zpow_log_succ x) ?_
    apply zpow_le_zpow_right₀ (by norm_num)
    unfold ulpExponent
    rw [abs_of_pos hx]
    have := le_max_left (Int.log 2 x) (-1022)
    omega
  have h2 : x / 2 ^ ulpExponent x ≤ (((2 : ℤ) ^ (53 : ℕ) : ℤ) : α) := by
    rw [div_le_iff₀ hs]
    have e : (((2 : ℤ) ^ (53 : ℕ) : ℤ) : α) * 2 ^ ulpExponent x = 2 ^ (ulpExponent x + 53) :=
      intCast_two_pow_mul 53 (ulpExponent x)
    rw [e]
    exact h1.le
  have h3 := roundHalfEven_le _ _ h2
  have h4 : ((roundHalfEven (x / 2 ^ ulpExponent x) : ℤ) : α) ≤ (((2 : ℤ) ^ (53 : ℕ) : ℤ) : α) := by
    exact_mod_cast h3
  unfold toDouble
  calc (roundHalfEven (x / 2 ^ ulpExponent x) : α) * 2 ^ ulpExponent x
      ≤ (((2 : ℤ) ^ (53 : ℕ) : ℤ) : α) * 2 ^ ulpExponent x :=
        mul_le_mul_of_nonneg_right h4 hs.le
    _ = 2 ^ (ulpExponent x + 53) := intCast_two_pow_mul 53 (ulpExponent x)

/-- In the normal range the value is at least the bottom of its binade. -/
theorem bottom_le_toDouble (x : α) (hx : 0 < x) (hn : -1022 ≤ Int.log 2 x) :
    2 ^ (ulpExponent x + 52) ≤ toDouble x := by
  have hs := two_zpow_pos (α := α) (ulpExponent x)
  have hk : ulpExponent x + 52 = Int.log 2 x := by
    unfold ulpExponent
    rw [abs_of_pos hx, max_eq_left hn]
    omega
  have h1 : (2 : α) ^ (ulpExponent x + 52) ≤ x := by
    rw [hk]; exact zpow_log_le x hx
  have e : (((2 : ℤ) ^ (52 : ℕ) : ℤ) : α) * 2 ^ ulpExponent x = 2 ^ (ulpExponent x + 52) :=
    intCast_two_pow_mul 52 (ulpExponent x)
  have h2 : (((2 : ℤ) ^ (52 : ℕ) : ℤ) : α) ≤ x / 2 ^ ulpExponent x := by
    rw [le_div_iff₀ hs, e]
    exact h1
  have h3 := le_roundHalfEven _ _ h2
  have h4 : (((2 : ℤ) ^ (52 : ℕ) : ℤ) : α) ≤ ((roundHalfEven (x / 2 ^ ulpExponent x) : ℤ) : α) := by
    exact_mod_cast h3
  unfold toDouble
  rw [← e]
  exact mul_le_mul_of_nonneg_right h4 hs.le

theorem ulpExponent_mono (x y : α) (hx : 0 < x) (h : x ≤ y) : ulpExponent x ≤ ulpExponent y := by
  unfold ulpExponent
  rw [abs_of_pos hx, abs_of_pos (lt_of_lt_of_le hx h)]
  have := Int.log_mono_right (b := 2) hx h
  have := max_le_max this (le_refl (-1022 : ℤ))
  omega

theorem toDouble_mono_pos (x y : α) (hx : 0 < x) (h : x ≤ y) : toDouble x ≤ toDouble y := by
  have hy : 0 < y := lt_of_lt_of_le hx h
  rcases eq_or_lt_of_le (ulpExponent_mono x y hx h) with he | he
  · unfold toDouble
    rw [he]
    have hs := two_zpow_pos (α := α) (ulpExponent y)
    have h1 : x / 2 ^ ulpExponent y ≤ y / 2 ^ ulpExponent y := div_le_div_of_nonneg_right h hs.le
    have h2 := roundHalfEven_mono h1
    exact mul_le_mul_of_nonneg_right (by exact_mod_cast h2) hs.le
  · have hn : -1022 ≤ Int.log 2 y := by
      by_contra hc
      have e1 : ulpExponent y = -1022 - 52 := by
        unfold ulpExponent
        rw [abs_of_pos hy, max_eq_right (by omega)]
      have e2 : -1022 - 52 ≤ ulpExponent x := by
        unfold ulpExponent
        have := le_max_right (Int.log 2 |x|) (-1022)
        omega
      omega
    refine le_trans (toDouble_le_top x hx) (le_trans ?_ (bottom_le_toDouble y hy hn))
    exact zpow_le_zpow_right₀ (by norm_num) (by omega)

theorem toDouble_mono {x y : α} (h : x ≤ y) : toDouble x ≤ toDouble y := by
  rcases lt_trichotomy x 0 with hx | hx | hx
  · rcases lt_or_le y 0 with hy | hy
    · have := toDouble_mono_pos (-y) (-x) (by linarith) (by linarith)
      rw [toDouble_neg, toDouble_neg] at this
      linarith
    · have h1 := toDouble_nonneg (-x) (by linarith)
      rw [toDouble_neg] at h1
      have h2 := toDouble_nonneg y hy
      linarith
  · rw [hx, toDouble_zero]
    exact toDouble_nonneg y (by linarith)
  · exact toDouble_mono_pos x y hx h

theorem ulpExponent_eq_of_binade (x : α) (e : ℤ) (he : -1022 ≤ e) (h1 : 2 ^ e ≤ |x|)
    (h2 : |x| < 2 ^ (e + 1)) : ulpExponent x = e - 52 := by
  have hx : 0 < |x| := lt_of_lt_of_le (two_zpow_pos e) h1
  have a := log_le_of_lt_zpow |x| hx e h2
  have b := le_log_of_zpow_le |x| hx e h1
  unfold ulpExponent
  rw [le_antisymm a b, max_eq_left he]

theorem toDouble_eq_of_binade (x : α) (e : ℤ) (he : -1022 ≤ e) (h1 : 2 ^ e ≤ |x|)
    (h2 : |x| < 2 ^ (e + 1)) (n : ℤ) (hn : |x / 2 ^ (e - 52) - (n : α)| < 1 / 2) :
    toDouble x = (n : α) * 2 ^ (e - 52) := by
  unfold toDouble
  rw [ulpExponent_eq_of_binade x e he h1 h2, roundHalfEven_eq_of_abs_lt _ n hn]

theorem toDouble_tie_of_binade (x : α) (e : ℤ) (he : -1022 ≤ e) (h1 : 2 ^ e ≤ |x|)
    (h2 : |x| < 2 ^ (e + 1)) (f : ℤ) (hf : x / 2 ^ (e - 52) = (f : α) + 1 / 2) :
    toDouble x = ((if f % 2 = 0 then f else f + 1 : ℤ) : α) * 2 ^ (e - 52) := by
  unfold toDouble
  rw [ulpExponent_eq_of_binade x e he h1 h2, roundHalfEven_tie _ f hf]

theorem toDouble_dyadic (m j : ℤ) (hm : |m| < 2 ^ 53) (hj : -1074 ≤ j) :
    toDouble ((m : α) * 2 ^ j) = (m : α) * 2 ^ j := by
  rcases eq_or_ne m 0 with h0 | h0
  · rw [h0, Int.cast_zero, zero_mul, toDouble_zero]
  · have hpos : 0 < |(m : α) * 2 ^ j| := by
      rw [abs_pos]
      exact mul_ne_zero (by exact_mod_cast h0) (two_zpow_pos j).ne'
    have hlt : |(m : α) * 2 ^ j| < 2 ^ (52 + j + 1) := by
      rw [abs_mul, abs_of_pos (two_zpow_pos (α := α) j),
        show (52 + j + 1 : ℤ) = j + ((53 : ℕ) : ℤ) by push_cast; ring,
        ← intCast_two_pow_mul 53 j]
      refine mul_lt_mul_of_pos_right ?_ (two_zpow_pos j)
      have : ((|m| : ℤ) : α) < (((2 : ℤ) ^ (53 : ℕ) : ℤ) : α) := by exact_mod_cast hm
      rwa [Int.cast_abs] at this
    have hlog := log_le_of_lt_zpow _ hpos (52 + j) hlt
    have hk : ulpExponent ((m : α) * 2 ^ j) ≤ j := by
      unfold ulpExponent
      have := max_le hlog (by omega : (-1022 : ℤ) ≤ 52 + j)
      omega
    obtain ⟨d, hd⟩ := Int.eq_ofNat_of_zero_le (sub_nonneg.2 hk)
    have hs := two_zpow_pos (α := α) (ulpExponent ((m : α) * 2 ^ j))
    have e1 : (2 : α) ^ j = (((2 : ℤ) ^ d : ℤ) : α) * 2 ^ ulpExponent ((m : α) * 2 ^ j) := by
      rw [intCast_two_pow_mul, ← hd]
      congr 1
      ring
    have e2 : (m : α) * 2 ^ j / 2 ^ ulpExponent ((m : α) * 2 ^ j) = ((m * 2 ^ d : ℤ) : α) := by
      rw [div_eq_iff hs.ne']
      nth_rewrite 1 [e1]
      push_cast
      ring
    unfold toDouble
    rw [e2, roundHalfEven_intCast]
    nth_rewrite 2 [e1]
    push_cast
    ring

theorem toDouble_intCast (n : ℤ) (hn : |n| < 2 ^ 53) : toDouble (n : α) = (n : α) := by
  have h := toDouble_dyadic (α := α) n 0 hn (by norm_num)
  rwa [zpow_zero, mul_one] at h

end RoundingLemmas

/-! ## Lemmas on the generator -/

section GeneratorLemmas

variable {α : Type} [LinearOrderedField α] [FloorRing α]

theorem timestamps_generateInitialData (now : ℤ) (random : ℕ → α) :
    (generateInitialData now random).map Sample.timestamp
      = (List.range 1000).map (fun i : ℕ => now - (1000 - (i : ℤ)) * 60000) := by
  unfold generateInitialData
  rw [List.map_map]
  rfl

theorem getLast?_map_range_succ {γ : Type} (f : ℕ → γ) (n : ℕ) :
    ((List.range (n + 1)).map f).getLast? = some (f n) := by
  rw [List.range_succ, List.map_append, List.map_singleton, List.getLast?_append]
  rfl

theorem timestamps_getLast? (now : ℤ) (random : ℕ → α) :
    ((generateInitialData now random).map Sample.timestamp).getLast? = some (now - 60000) := by
  rw [timestamps_generateInitialData]
  have h := getLast?_map_range_succ (fun i : ℕ => now - (1000 - (i : ℤ)) * 60000) 999
  rw [h]
  congr 1

theorem generateInitialData_getElem? (now : ℤ) (random : ℕ → α) (i : ℕ) (hi : i < 1000) :
    (generateInitialData now random)[i]? = some (seedPoint now random i) := by
  unfold generateInitialData
  rw [List.getElem?_map, List.getElem?_range hi]
  rfl

theorem timestamps_sorted_lt (now : ℤ) (random : ℕ → α) :
    List.Sorted (fun a b : ℤ => a < b) ((generateInitialData now random).map Sample.timestamp) := by
  rw [timestamps_generateInitialData]
  refine List.pairwise_map.2 ((List.pairwise_lt_range 1000).imp ?_)
  intro a b hab
  show now - (1000 - (a : ℤ)) * 60000 < now - (1000 - (b : ℤ)) * 60000
  omega

theorem timestamps_le_now (now : ℤ) (random : ℕ → α) :
    ∀ t ∈ (generateInitialData now random).map Sample.timestamp, t ≤ now := by
  intro t ht
  rw [timestamps_generateInitialData] at ht
  obtain ⟨i, hi, rfl⟩ := List.mem_map.1 ht
  have := List.mem_range.1 hi
  omega

theorem chrono_inv (c : ℤ) (b : List (Sample α)) (h : ChronoReach c b) :
    List.Sorted (fun a b : ℤ => a ≤ b) (b.map Sample.timestamp) ∧
    ∀ t ∈ b.map Sample.timestamp, t ≤ c := by
  induction h with
  | seed now0 random =>
    exact ⟨(timestamps_sorted_lt now0 random).imp (fun h => le_of_lt h),
      timestamps_le_now now0 random⟩
  | @tick c0 b0 h _ hle ih =>
    obtain ⟨hs, hb⟩ := ih
    have hall : List.Sorted (fun a b : ℤ => a ≤ b) ((b0 ++ [newPoint h]).map Sample.timestamp) := by
      rw [List.map_append, List.map_singleton]
      refine List.pairwise_append.2 ⟨hs, List.pairwise_singleton _ _, ?_⟩
      intro a ha x hx
      rw [List.mem_singleton] at hx
      subst hx
      exact le_trans (hb a ha) hle
    have hsub : ((appendPoint b0 (newPoint h)).map Sample.timestamp).Sublist
        ((b0 ++ [newPoint h]).map Sample.timestamp) := by
      rw [appendPoint_eq]
      exact (List.drop_sublist _ _).map _
    refine ⟨hall.sublist hsub, ?_⟩
    intro t ht
    have ht1 := hsub.subset ht
    rw [List.map_append, List.map_singleton, List.mem_append, List.mem_singleton] at ht1
    rcases ht1 with h1 | h1
    · exact le_trans (hb t h1) hle
    · rw [h1]; exact le_refl _

theorem mathFloor_nonneg (x : α) (hx : 0 ≤ x) : (0 : α) ≤ mathFloor x := by
  unfold mathFloor
  exact_mod_cast Int.floor_nonneg.2 hx

theorem mathFloor_isInteger (x : α) : IsInteger (mathFloor x) := ⟨⌊x⌋, rfl⟩

theorem errors_range (r : α) (h0 : 0 ≤ r) (h1 : r < 1) :
    ∃ n : ℤ, mathFloor (r * 10) = (n : α) ∧ 0 ≤ n ∧ n < 10 := by
  refine ⟨⌊r * 10⌋, rfl, Int.floor_nonneg.2 (by positivity), ?_⟩
  rw [Int.floor_lt]
  push_cast
  linarith

theorem newPoint_inRange (h : Host α) (hr : ∀ k, 0 ≤ h.random k ∧ h.random k < 1)
    (hs : ∀ x, -1 ≤ h.sin x ∧ h.sin x ≤ 1) (hc : ∀ x, -1 ≤ h.cos x ∧ h.cos x ≤ 1) :
    (newPoint h).InRange := by
  have f0 := mathFloor_nonneg (h.random 0 * 1000) (mul_nonneg (hr 0).1 (by norm_num))
  have f2 := mathFloor_nonneg (h.random 2 * 200) (mul_nonneg (hr 2).1 (by norm_num))
  have f3 := mathFloor_nonneg (h.random 3 * 1000) (mul_nonneg (hr 3).1 (by norm_num))
  have f4 := mathFloor_nonneg (h.random 4 * 10) (mul_nonneg (hr 4).1 (by norm_num))
  have s1 := (hs ((h.now 1 : α) / 10000)).1
  have c2 := (hc ((h.now 2 : α) / 15000)).1
  have s3 := (hs ((h.now 3 : α) / 8000)).1
  have c4 := (hc ((h.now 4 : α) / 12000)).1
  have s5 := (hs ((h.now 5 : α) / 5000)).1
  have r1 := (hr 1).1
  have r5 := (hr 5).1
  refine ⟨?_, ?_, ?_, ?_, f4, ?_, errors_range _ (hr 4).1 (hr 4).2⟩
  · show (0 : α) ≤ mathFloor (h.random 0 * 1000) + 500 + h.sin ((h.now 1 : α) / 10000) * 200
    linarith
  · show (0 : α) ≤ h.random 1 * 5000 + 1000 + h.cos ((h.now 2 : α) / 15000) * 1000
    linarith
  · show (0 : α) ≤ mathFloor (h.random 2 * 200) + 100 + h.sin ((h.now 3 : α) / 8000) * 50
    linarith
  · show (0 : α) ≤ mathFloor (h.random 3 * 1000) + 500 + h.cos ((h.now 4 : α) / 12000) * 300
    linarith
  · show (0 : α) ≤ h.random 5 * 200 + 50 + h.sin ((h.now 5 : α) / 5000) * 30
    linarith

theorem seedPoint_inRange (now : ℤ) (random : ℕ → α)
    (hr : ∀ k, 0 ≤ random k ∧ random k < 1) (i : ℕ) : (seedPoint now random i).InRange := by
  have f0 := mathFloor_nonneg (random (6 * i) * 1000) (mul_nonneg (hr _).1 (by norm_num))
  have f2 := mathFloor_nonneg (random (6 * i + 2) * 200) (mul_nonneg (hr _).1 (by norm_num))
  have f3 := mathFloor_nonneg (random (6 * i + 3) * 1000) (mul_nonneg (hr _).1 (by norm_num))
  have f4 := mathFloor_nonneg (random (6 * i + 4) * 10) (mul_nonneg (hr _).1 (by norm_num))
  have r1 := (hr (6 * i + 1)).1
  have r5 := (hr (6 * i + 5)).1
  refine ⟨?_, ?_, ?_, ?_, f4, ?_, errors_range _ (hr _).1 (hr _).2⟩
  · show (0 : α) ≤ mathFloor (random (6 * i) * 1000) + 500
    linarith
  · show (0 : α) ≤ random (6 * i + 1) * 5000 + 1000
    linarith
  · show (0 : α) ≤ mathFloor (random (6 * i + 2) * 200) + 100
    linarith
  · show (0 : α) ≤ mathFloor (random (6 * i + 3) * 1000) + 500
    linarith
  · show (0 : α) ≤ random (6 * i + 5) * 200 + 50
    linarith

end GeneratorLemmas

theorem not_isInteger_add_frac {α : Type} [LinearOrderedField α] (z : ℤ) (e : α) (h0 : 0 < e) (h1 : e < 1) :
    ¬ IsInteger ((z : α) + e) := by
  rintro ⟨n, hn⟩
  have e1 : e = ((n - z : ℤ) : α) := by push_cast; linarith
  rw [e1] at h0 h1
  have a0 : (0 : ℤ) < n - z := by exact_mod_cast h0
  have a1 : n - z < (1 : ℤ) := by exact_mod_cast h1
  omega

/-! ## Lemmas on the state machine -/

theorem inv_initialState {α : Type} [LinearOrderedField α] : Inv (initialState : State α) := by
  refine ⟨?_, ?_, ?_⟩
  · intro h; simp [initialState] at h
  · intro _; rfl
  · simp [initialState]

theorem inv_toggleStreaming {α : Type} (s : State α) (h : Inv s) : Inv (toggleStreaming s) := by
  obtain ⟨h1, h2, h3⟩ := h
  cases hs : s.isStreaming with
  | true =>
    obtain ⟨id, hr, ht⟩ := h1 hs
    refine ⟨?_, ?_, ?_⟩
    · intro h; simp [toggleStreaming, effectBody, effectCleanup, hs] at h
    · intro _; simp [toggleStreaming, effectBody, effectCleanup, hs, clearInterval, hr, ht]
    · simpa [toggleStreaming, effectBody, effectCleanup, hs] using h3
  | false =>
    have ht := h2 hs
    refine ⟨?_, ?_, ?_⟩
    · intro _
      refine ⟨s.nextId, ?_, ?_⟩
      · simp [toggleStreaming, effectBody, effectCleanup, hs]
      · cases hr : s.streamingRef <;>
          simp [toggleStreaming, effectBody, effectCleanup, hs, clearInterval, hr, ht]
    · intro h; simp [toggleStreaming, effectBody, effectCleanup, hs] at h
    · simpa [toggleStreaming, effectBody, effectCleanup, hs] using h3

section MachineLemmas

variable {α : Type} [LinearOrderedField α] [FloorRing α]

theorem generateInitialData_length (now : ℤ) (random : ℕ → α) :
    (generateInitialData now random).length = 1000 := by
  unfold generateInitialData
  rw [List.length_map, List.length_range]

theorem inv_mount (now : ℤ) (random : ℕ → α) : Inv (mount now random) := by
  refine ⟨?_, ?_, ?_⟩
  · intro h; simp [mount, effectBody, initialState] at h
  · intro _; simp [mount, effectBody, initialState, clearInterval]
  · simp [mount, effectBody, initialState, generateInitialData_length]

theorem inv_tick (h : Host α) (s : State α) (hi : Inv s) : Inv (tick h s) := by
  obtain ⟨h1, h2, _⟩ := hi
  refine ⟨h1, h2, ?_⟩
  show (appendPoint s.dataPoints (newPoint h)).length ≤ 1000
  rw [appendPoint_length]
  omega

theorem inv_step (s s1 : State α) (e : Event α) (hi : Inv s) (hst : step s e = some s1) :
    Inv s1 := by
  cases e with
  | toggle =>
    simp only [step, Option.some.injEq] at hst
    subst hst
    exact inv_toggleStreaming s hi
  | timerFire id h =>
    simp only [step] at hst
    split at hst
    · simp only [Option.some.injEq] at hst
      subst hst
      exact inv_tick h s hi
    · exact absurd hst (by simp)

theorem inv_running (s : State α) (h : Running s) : Inv s := by
  induction h with
  | mount now random => exact inv_mount now random
  | step e _ hst ih => exact inv_step _ _ e ih hst

theorem inv_reachable (s : State α) (h : Reachable s) : Inv s := by
  rcases h with h | h
  · subst h; exact inv_initialState
  · exact inv_running s h

theorem step_timerFire_none (s : State α) (ht : s.timers = []) (id : ℕ) (h : Host α) :
    step s (Event.timerFire id h) = none := by
  simp [step, ht]

theorem elapse_of_no_timer (fires : List (ℕ × Host α)) (s : State α) (ht : s.timers = []) :
    elapse s fires = s := by
  induction fires with
  | nil => rfl
  | cons f fs ih =>
    unfold elapse at ih ⊢
    rw [List.foldl_cons, step_timerFire_none s ht]
    exact ih

end MachineLemmas

theorem window_map_toSample {α : Type} (fmt : ℤ → String) (c : ℕ) (hc : 0 < c)
    (l : List (Sample α)) :
    (window fmt (c : ℤ) l).map ChartRow.toSample = lastN c l := by
  unfold window
  split
  · rename_i hl
    rw [List.length_eq_zero] at hl
    subst hl
    simp [lastN]
  · rw [jsSlice_neg l c hc, List.map_map]
    exact List.map_id _

/-! ## Lemmas on the counters -/

section CounterLemmas

variable {α : Type} [LinearOrderedField α] [FloorRing α]

theorem toDouble_draw_bounds (r : α) (h0 : 0 ≤ r) (h1 : r < 1) (c : ℤ) (hc0 : 0 ≤ c)
    (hc : |c| < 2 ^ 53) :
    0 ≤ toDouble (r * (c : α)) ∧ toDouble (r * (c : α)) ≤ (c : α) := by
  have hcα : (0 : α) ≤ (c : α) := by exact_mod_cast hc0
  refine ⟨toDouble_nonneg _ (mul_nonneg h0 hcα), ?_⟩
  have h2 : r * (c : α) ≤ (c : α) := by nlinarith
  have h3 := toDouble_mono h2
  rwa [toDouble_intCast c hc] at h3

theorem users_draw (h : Host α) (hr : ∀ k, 0 ≤ h.random k ∧ h.random k < 1) :
    ∃ k : ℤ, mathFloor (toDouble (h.random 6 * 10)) = (k : α) ∧ 0 ≤ k ∧ k ≤ 10 := by
  have hb := toDouble_draw_bounds (h.random 6) (hr 6).1 (hr 6).2 10 (by norm_num) (by norm_num)
  rw [show ((10 : ℤ) : α) = 10 by norm_num] at hb
  refine ⟨⌊toDouble (h.random 6 * 10)⌋, rfl, Int.floor_nonneg.2 hb.1, ?_⟩
  have h1 : ((⌊toDouble (h.random 6 * 10)⌋ : ℤ) : α) ≤ ((10 : ℤ) : α) :=
    le_trans (Int.floor_le _) (by rw [show ((10 : ℤ) : α) = 10 by norm_num]; exact hb.2)
  exact_mod_cast h1

theorem revenue_bracket (h : Host α) (hr : ∀ k, 0 ≤ h.random k ∧ h.random k < 1) (p : α) :
    toDouble (toDouble p - 50)
        ≤ toDouble (toDouble (p + toDouble (h.random 7 * 100)) - 50) ∧
      toDouble (toDouble (p + toDouble (h.random 7 * 100)) - 50)
        ≤ toDouble (toDouble (p + 100) - 50) := by
  have hb := toDouble_draw_bounds (h.random 7) (hr 7).1 (hr 7).2 100 (by norm_num) (by norm_num)
  rw [show ((100 : ℤ) : α) = 100 by norm_num] at hb
  constructor
  · apply toDouble_mono
    have := toDouble_mono (show p ≤ p + toDouble (h.random 7 * 100) by linarith [hb.1])
    linarith
  · apply toDouble_mono
    have := toDouble_mono (show p + toDouble (h.random 7 * 100) ≤ p + 100 by linarith [hb.2])
    linarith

theorem isDouble_of_binade (x : α) (e : ℤ) (he : -1022 ≤ e) (he1 : e ≤ 1023)
    (h1 : 2 ^ e ≤ |x|) (h2 : |x| < 2 ^ (e + 1)) (n : ℤ) (hn : x / 2 ^ (e - 52) = (n : α)) :
    IsDouble x := by
  constructor
  · rw [toDouble_eq_of_binade x e he h1 h2 n (by rw [hn, sub_self, abs_zero]; norm_num), ← hn,
      div_mul_cancel₀ _ (two_zpow_pos (e - 52)).ne']
  · refine lt_of_lt_of_le h2 ?_
    have h3 : (2 : α) ^ (e + 1) ≤ 2 ^ ((1024 : ℕ) : ℤ) :=
      zpow_le_zpow_right₀ (by norm_num) (by omega)
    rwa [zpow_natCast] at h3

end CounterLemmas

theorem metrics_witness_users :
    (tick (⟨fun _ => 3 / 4, fun _ => 0, fun _ => 0, fun _ => 1⟩ : Host ℚ)
      (toggleStreaming (mount 0 (fun _ => (0 : ℚ))))).metrics.totalUsers = 1247834 := by
  show toDouble (toDouble ((1247832 : ℚ) + mathFloor (toDouble (3 / 4 * 10))) - 5) = 1247834
  have e1 : toDouble ((3 / 4 : ℚ) * 10) = 15 / 2 := by
    rw [toDouble_eq_of_binade _ 2 (by norm_num) (by norm_num [abs_of_pos])
      (by norm_num [abs_of_pos]) (15 * 2 ^ 49) (by norm_num [abs_lt])]
    norm_num
  have e2 : mathFloor (15 / 2 : ℚ) = 7 := by
    unfold mathFloor
    have : ⌊(15 / 2 : ℚ)⌋ = 7 := Int.floor_eq_iff.2 ⟨by norm_num, by norm_num⟩
    rw [this]
    norm_num
  have e3 : toDouble ((1247832 : ℚ) + 7) = 1247839 := by
    have h := toDouble_intCast (α := ℚ) 1247839 (by norm_num [abs_of_pos])
    norm_num at h ⊢
    exact h
  have e4 : toDouble ((1247839 : ℚ) - 5) = 1247834 := by
    have h := toDouble_intCast (α := ℚ) 1247834 (by norm_num [abs_of_pos])
    norm_num at h ⊢
    exact h
  rw [e1, e2, e3, e4]

theorem metrics_witness_revenue :
    (tick (⟨fun _ => 3 / 4, fun _ => 0, fun _ => 0, fun _ => 1⟩ : Host ℚ)
      (toggleStreaming (mount 0 (fun _ => (0 : ℚ))))).metrics.revenue = 178915 / 2 := by
  show toDouble (toDouble ((178865 / 2 : ℚ) + toDouble (3 / 4 * 100)) - 50) = 178915 / 2
  have e1 : toDouble ((3 / 4 : ℚ) * 100) = 75 := by
    have h := toDouble_intCast (α := ℚ) 75 (by norm_num [abs_of_pos])
    norm_num at h ⊢
    exact h
  have e2 : toDouble ((178865 / 2 : ℚ) + 75) = 179015 / 2 := by
    rw [toDouble_eq_of_binade _ 16 (by norm_num) (by norm_num [abs_of_pos])
      (by norm_num [abs_of_pos]) (179015 * 2 ^ 35) (by norm_num [abs_lt])]
    norm_num
  have e3 : toDouble ((179015 / 2 : ℚ) - 50) = 178915 / 2 := by
    rw [toDouble_eq_of_binade _ 16 (by norm_num) (by norm_num [abs_of_pos])
      (by norm_num [abs_of_pos]) (178915 * 2 ^ 35) (by norm_num [abs_lt])]
    norm_num
  rw [e1, e2, e3]

/-! ## The rolling buffer -/

/-- C1: FIFO eviction law.  Appending the samples `x, s_1, ..., s_n` one at a
time to any buffer `b` gives the last `min 1000 (|b| + n + 1)` elements of
`b ++ [x, s_1, ..., s_n]`, in the same order; for a buffer `c` within the
capacity, and so for the buffer of every reachable state, the same holds for
every sequence `s`, the empty one included.  From the empty buffer, appending
more than 1000 samples `u` gives a buffer of length 1000 that is the last 1000
samples of `u`; and after the 1000 samples `t` and one more sample `y`, all
distinct, the length is 1000 and the first sample of `t` is not in the
buffer. -/
theorem fifo_eviction_law {α β : Type} [LinearOrderedField α] [FloorRing α]
    (b : List β) (x : β) (s : List β) (c : List β) (hc : c.length ≤ 1000)
    (st : State α) (hst : Reachable st) (ss : List (Sample α))
    (u : List β) (hu : 1000 < u.length)
    (t : List β) (y : β) (hl : t.length = 1000) (hd : (t ++ [y]).Nodup) :
    appendAll b (x :: s) = lastN (min 1000 (b.length + (x :: s).length)) (b ++ x :: s) ∧
    appendAll c s = lastN (min 1000 (c.length + s.length)) (c ++ s) ∧
    appendAll st.dataPoints ss
      = lastN (min 1000 (st.dataPoints.length + ss.length)) (st.dataPoints ++ ss) ∧
    ((appendAll [] u).length = 1000 ∧ appendAll [] u = u.drop (u.length - 1000)) ∧
    (appendAll [] t).length = 1000 ∧
    (appendAll [] (t ++ [y])).length = 1000 ∧
    ∀ z, t.head? = some z → z ∉ appendAll [] (t ++ [y]) := by
  refine ⟨appendAll_eq b (x :: s) (Or.inl (List.cons_ne_nil _ _)), appendAll_eq_of_le s c hc,
    appendAll_eq_of_le ss _ (inv_reachable st hst).2.2, ?_, ?_, ?_, ?_⟩
  · have e := appendAll_eq_of_le u [] (Nat.zero_le _)
    simp only [List.length_nil, Nat.zero_add, List.nil_append] at e
    have e1 : min 1000 u.length = 1000 := by omega
    rw [e1] at e
    refine ⟨?_, by rw [e]; rfl⟩
    rw [e, lastN_length]; omega
  · rw [appendAll_eq_of_le t [] (Nat.zero_le _), lastN_length]
    simp only [List.length_nil, Nat.zero_add, List.nil_append]
    omega
  · rw [appendAll_eq_of_le _ [] (Nat.zero_le _), lastN_length]
    simp only [List.length_nil, Nat.zero_add, List.nil_append, List.length_append,
      List.length_singleton]
    omega
  · intro z hz
    rw [appendAll_eq_of_le _ [] (Nat.zero_le _)]
    simp only [List.length_nil, Nat.zero_add, List.nil_append, List.length_append,
      List.length_singleton]
    cases t with
    | nil => simp at hl
    | cons a t1 =>
      simp only [List.head?_cons, Option.some.injEq] at hz
      subst hz
      simp only [List.length_cons] at hl
      have e : lastN (min 1000 (t1.length + 1 + 1)) (a :: t1 ++ [y]) = t1 ++ [y] := by
        unfold lastN
        have e1 : (a :: t1 ++ [y]).length - min 1000 (t1.length + 1 + 1) = 1 := by
          simp only [List.length_cons, List.length_append, List.length_nil]; omega
        rw [e1]; rfl
      simp only [List.length_cons] at e ⊢
      rw [e]
      rw [List.cons_append] at hd
      exact (List.nodup_cons.1 hd).1

/-- Witness of the FIFO law: appends onto a short buffer, onto the seeded
buffer of the state in which streaming has been started, 1500 appends onto the
empty buffer, and the samples `0, ..., 999` followed by `1000`. -/
theorem fifo_eviction_law_witness :
    ([5] : List ℕ).length ≤ 1000 ∧
    Reachable (toggleStreaming (mount 0 (fun _ => (0 : ℚ)))) ∧
    1000 < (List.range 1500).length ∧
    (List.range 1000).length = 1000 ∧
    (List.range 1000 ++ [1000]).Nodup ∧
    (appendAll ([7, 8] : List ℕ) (1 :: [2, 3])
        = lastN (min 1000 (([7, 8] : List ℕ).length + (1 :: [2, 3]).length))
            ([7, 8] ++ 1 :: [2, 3]) ∧
      appendAll ([5] : List ℕ) [2, 3]
        = lastN (min 1000 (([5] : List ℕ).length + [2, 3].length)) ([5] ++ [2, 3]) ∧
      appendAll (toggleStreaming (mount 0 (fun _ => (0 : ℚ)))).dataPoints
          [seedPoint 0 (fun _ => (0 : ℚ)) 0, seedPoint 0 (fun _ => (0 : ℚ)) 1]
        = lastN (min 1000 ((toggleStreaming (mount 0 (fun _ => (0 : ℚ)))).dataPoints.length
              + [seedPoint 0 (fun _ => (0 : ℚ)) 0, seedPoint 0 (fun _ => (0 : ℚ)) 1].length))
            ((toggleStreaming (mount 0 (fun _ => (0 : ℚ)))).dataPoints
              ++ [seedPoint 0 (fun _ => (0 : ℚ)) 0, seedPoint 0 (fun _ => (0 : ℚ)) 1]) ∧
      ((appendAll [] (List.range 1500)).length = 1000 ∧
        appendAll [] (List.range 1500)
          = (List.range 1500).drop ((List.range 1500).length - 1000)) ∧
      (appendAll [] (List.range 1000)).length = 1000 ∧
      (appendAll [] (List.range 1000 ++ [1000])).length = 1000 ∧
      ∀ z, (List.range 1000).head? = some z → z ∉ appendAll [] (List.range 1000 ++ [1000])) :=
  ⟨by decide,
    Or.inr (Running.step Event.toggle (Running.mount 0 _) rfl),
    by rw [List.length_range]; omega, List.length_range 1000, nodup_range_concat 1000,
    fifo_eviction_law [7, 8] 1 [2, 3] [5] (by decide)
      (toggleStreaming (mount 0 (fun _ => (0 : ℚ))))
      (Or.inr (Running.step Event.toggle (Running.mount 0 _) rfl))
      [seedPoint 0 (fun _ => (0 : ℚ)) 0, seedPoint 0 (fun _ => (0 : ℚ)) 1]
      (List.range 1500) (by rw [List.length_range]; omega)
      (List.range 1000) 1000 (List.length_range 1000) (nodup_range_concat 1000)⟩

/-- C2: in every reachable state of the dashboard the buffer has at most 1000
samples; and an append onto a buffer of exactly 1000 samples gives a buffer of
exactly 1000 samples whose first 999 are the old elements 2..1000 in order and
whose last is the new sample. -/
theorem capacity_invariant {α : Type} [LinearOrderedField α] [FloorRing α]
    (s : State α) (hs : Reachable s) (b : List (Sample α)) (x : Sample α)
    (hb : b.length = 1000) :
    s.dataPoints.length ≤ 1000 ∧
    (appendPoint b x).length = 1000 ∧
    (appendPoint b x).take 999 = b.drop 1 ∧
    (appendPoint b x).getLast? = some x ∧
    appendPoint b x = b.drop 1 ++ [x] := by
  refine ⟨(inv_reachable s hs).2.2, ?_, ?_, ?_, appendPoint_full b x hb⟩
  · rw [appendPoint_length]; omega
  · rw [appendPoint_full b x hb]
    have hl : (b.drop 1).length = 999 := by rw [List.length_drop]; omega
    rw [← hl, List.take_left]
  · rw [appendPoint_full b x hb, List.getLast?_append]
    rfl

/-- Witness of `capacity_invariant`: the state after the first render's
effects, and an append onto its seed. -/
theorem capacity_invariant_witness :
    Reachable (mount 0 (fun _ => (0 : ℚ))) ∧
    (generateInitialData 0 (fun _ => (0 : ℚ))).length = 1000 ∧
    ((mount 0 (fun _ => (0 : ℚ))).dataPoints.length ≤ 1000 ∧
      (appendPoint (generateInitialData 0 (fun _ => (0 : ℚ))) (seedPoint 0 (fun _ => 0) 0)).length
        = 1000 ∧
      (appendPoint (generateInitialData 0 (fun _ => (0 : ℚ))) (seedPoint 0 (fun _ => 0) 0)).take 999
        = (generateInitialData 0 (fun _ => (0 : ℚ))).drop 1 ∧
      (appendPoint (generateInitialData 0 (fun _ => (0 : ℚ)))
        (seedPoint 0 (fun _ => 0) 0)).getLast? = some (seedPoint 0 (fun _ => 0) 0) ∧
      appendPoint (generateInitialData 0 (fun _ => (0 : ℚ))) (seedPoint 0 (fun _ => 0) 0)
        = (generateInitialData 0 (fun _ => (0 : ℚ))).drop 1 ++ [seedPoint 0 (fun _ => 0) 0]) :=
  ⟨Or.inr (Running.mount 0 _), generateInitialData_length 0 _,
    capacity_invariant _ (Or.inr (Running.mount 0 _)) _ _ (generateInitialData_length 0 _)⟩

/-! ## The generated samples -/

/-- C4: for random draws in `[0, 1)` and sine and cosine values in `[-1, 1]`,
every numeric field of a streamed sample is non-negative and `errors` is an
integer with `0 ≤ errors < 10`; the same holds for every sample of
`generateInitialData`. -/
theorem sample_ranges {α : Type} [LinearOrderedField α] [FloorRing α]
    (h : Host α) (hr : ∀ k, 0 ≤ h.random k ∧ h.random k < 1)
    (hs : ∀ x, -1 ≤ h.sin x ∧ h.sin x ≤ 1) (hc : ∀ x, -1 ≤ h.cos x ∧ h.cos x ≤ 1)
    (now : ℤ) (random : ℕ → α) (hr1 : ∀ k, 0 ≤ random k ∧ random k < 1) :
    (newPoint h).InRange ∧ ∀ p ∈ generateInitialData now random, p.InRange := by
  refine ⟨newPoint_inRange h hr hs hc, ?_⟩
  intro p hp
  unfold generateInitialData at hp
  obtain ⟨i, _, rfl⟩ := List.mem_map.1 hp
  exact seedPoint_inRange now random hr1 i

/-- Witness of `sample_ranges`: the least draws and the least sine and cosine
values. -/
theorem sample_ranges_witness :
    (∀ k, 0 ≤ (⟨fun _ => 0, fun _ => 1700000000000, fun _ => -1, fun _ => -1⟩ : Host ℚ).random k ∧
      (⟨fun _ => 0, fun _ => 1700000000000, fun _ => -1, fun _ => -1⟩ : Host ℚ).random k < 1) ∧
    (∀ x, -1 ≤ (⟨fun _ => 0, fun _ => 1700000000000, fun _ => -1, fun _ => -1⟩ : Host ℚ).sin x ∧
      (⟨fun _ => 0, fun _ => 1700000000000, fun _ => -1, fun _ => -1⟩ : Host ℚ).sin x ≤ 1) ∧
    (∀ x, -1 ≤ (⟨fun _ => 0, fun _ => 1700000000000, fun _ => -1, fun _ => -1⟩ : Host ℚ).cos x ∧
      (⟨fun _ => 0, fun _ => 1700000000000, fun _ => -1, fun _ => -1⟩ : Host ℚ).cos x ≤ 1) ∧
    (∀ k : ℕ, 0 ≤ (fun _ : ℕ => (1 / 2 : ℚ)) k ∧ (fun _ : ℕ => (1 / 2 : ℚ)) k < 1) ∧
    ((newPoint (⟨fun _ => 0, fun _ => 1700000000000, fun _ => -1, fun _ => -1⟩ : Host ℚ)).InRange ∧
      ∀ p ∈ generateInitialData 1700000000000 (fun _ : ℕ => (1 / 2 : ℚ)), p.InRange) :=
  ⟨fun _ => ⟨le_refl _, by norm_num⟩, fun _ => ⟨le_refl _, by norm_num⟩,
    fun _ => ⟨le_refl _, by norm_num⟩, fun _ => ⟨by norm_num, by norm_num⟩,
    sample_ranges _ (fun _ => ⟨le_refl _, by norm_num⟩) (fun _ => ⟨le_refl _, by norm_num⟩)
      (fun _ => ⟨le_refl _, by norm_num⟩) 1700000000000 _ (fun _ => ⟨by norm_num, by norm_num⟩)⟩

/-- C5 at a failing input: with the clock at 1699999979560 ms and the real
sine, the `users` field of the streamed sample is not an integer, whatever the
random draws are. -/
theorem stream_users_not_integer (random : ℕ → ℝ) :
    ¬ IsInteger
      (newPoint (⟨random, fun _ => 1699999979560, Real.sin, Real.cos⟩ : Host ℝ)).users := by
  have hsin : Real.sin ((1699999979560 : ℝ) / 10000)
      = Real.sin ((1699999979560 : ℝ) / 10000 - ((27056340 : ℕ) : ℝ) * (2 * Real.pi)) :=
    (Real.sin_sub_nat_mul_two_pi _ _).symm
  have hlo := Real.pi_gt_d20
  have hhi := Real.pi_lt_d20
  have y0 : 0 < (1699999979560 : ℝ) / 10000 - ((27056340 : ℕ) : ℝ) * (2 * Real.pi) := by
    push_cast; norm_num at hhi ⊢; linarith
  have y1 : (1699999979560 : ℝ) / 10000 - ((27056340 : ℕ) : ℝ) * (2 * Real.pi) < 1 / 400 := by
    push_cast; norm_num at hlo ⊢; linarith
  have s0 := Real.sin_pos_of_pos_of_lt_pi y0 (by linarith [Real.pi_gt_three])
  have s1 := Real.sin_lt y0
  rw [← hsin] at s0 s1
  have hu : (newPoint (⟨random, fun _ => 1699999979560, Real.sin, Real.cos⟩ : Host ℝ)).users
      = ((⌊random 0 * 1000⌋ + 500 : ℤ) : ℝ) + Real.sin ((1699999979560 : ℝ) / 10000) * 200 := by
    show mathFloor (random 0 * 1000) + 500
        + Real.sin ((((1699999979560 : ℤ) : ℝ)) / 10000) * 200 = _
    unfold mathFloor
    push_cast
    ring
  rw [hu]
  exact not_isInteger_add_frac _ _ (by linarith) (by linarith)

/-! ## The seed -/

/-- C6 (as amended): for every clock value `now`, `generateInitialData` returns
exactly 1000 samples, consecutive timestamps are exactly 60000 ms apart, the
first timestamp is `now - 60000000` and the last one is `now - 60000`. -/
theorem seeding {α : Type} [LinearOrderedField α] [FloorRing α]
    (now : ℤ) (random : ℕ → α) (i : ℕ) (hi : i + 1 < 1000) :
    (generateInitialData now random).length = 1000 ∧
    (∃ p q, (generateInitialData now random)[i]? = some p ∧
      (generateInitialData now random)[i + 1]? = some q ∧
      q.timestamp - p.timestamp = 60000) ∧
    ((generateInitialData now random).map Sample.timestamp).head? = some (now - 60000000) ∧
    ((generateInitialData now random).map Sample.timestamp).getLast? = some (now - 60000) := by
  refine ⟨generateInitialData_length now random, ?_, ?_, timestamps_getLast? now random⟩
  · refine ⟨seedPoint now random i, seedPoint now random (i + 1),
      generateInitialData_getElem? now random i (by omega),
      generateInitialData_getElem? now random (i + 1) hi, ?_⟩
    show now - (1000 - ((i + 1 : ℕ) : ℤ)) * 60000 - (now - (1000 - (i : ℤ)) * 60000) = 60000
    push_cast
    ring
  · rw [List.head?_eq_getElem?, List.getElem?_map,
      generateInitialData_getElem? now random 0 (by decide)]
    show some (now - (1000 - ((0 : ℕ) : ℤ)) * 60000) = some (now - 60000000)
    congr 1

/-- Witness of `seeding`: the last pair of consecutive samples. -/
theorem seeding_witness :
    998 + 1 < 1000 ∧
    ((generateInitialData 1700000000000 (fun _ => (1 / 2 : ℚ))).length = 1000 ∧
      (∃ p q, (generateInitialData 1700000000000 (fun _ => (1 / 2 : ℚ)))[998]? = some p ∧
        (generateInitialData 1700000000000 (fun _ => (1 / 2 : ℚ)))[998 + 1]? = some q ∧
        q.timestamp - p.timestamp = 60000) ∧
      ((generateInitialData 1700000000000 (fun _ => (1 / 2 : ℚ))).map Sample.timestamp).head?
        = some (1700000000000 - 60000000) ∧
      ((generateInitialData 1700000000000 (fun _ => (1 / 2 : ℚ))).map Sample.timestamp).getLast?
        = some (1700000000000 - 60000)) :=
  ⟨by decide, seeding 1700000000000 _ 998 (by decide)⟩

/-- C6 as stated fails: with the clock at 0 the last timestamp of the seed is
`-60000`, not the clock value. -/
theorem seeding_counterexample :
    ((generateInitialData 0 (fun _ => (0 : ℚ))).map Sample.timestamp).getLast? = some (-60000) ∧
    ((generateInitialData 0 (fun _ => (0 : ℚ))).map Sample.timestamp).getLast? ≠ some 0 := by
  have h := timestamps_getLast? 0 (fun _ => (0 : ℚ))
  rw [h]
  exact ⟨by decide, by decide⟩

/-- C7: with a clock that never goes backwards, in every buffer reached from
the seed by streaming appends the timestamps are non-decreasing from the first
to the last element; the seed alone has strictly increasing timestamps. -/
theorem chronological_order {α : Type} [LinearOrderedField α] [FloorRing α]
    (c : ℤ) (b : List (Sample α)) (h : ChronoReach c b) (now : ℤ) (random : ℕ → α) :
    List.Sorted (fun x y : ℤ => x ≤ y) (b.map Sample.timestamp) ∧
    List.Sorted (fun x y : ℤ => x < y) ((generateInitialData now random).map Sample.timestamp) :=
  ⟨(chrono_inv c b h).1, timestamps_sorted_lt now random⟩

/-- Witness of `chronological_order`: the seed taken at clock 0 followed by one
append at clock 5. -/
theorem chronological_order_witness :
    ChronoReach 5 (appendPoint (generateInitialData 0 (fun _ => (0 : ℚ)))
      (newPoint ⟨fun _ => 0, fun _ => 5, fun _ => 0, fun _ => 1⟩)) ∧
    (List.Sorted (fun x y : ℤ => x ≤ y)
        ((appendPoint (generateInitialData 0 (fun _ => (0 : ℚ)))
          (newPoint ⟨fun _ => 0, fun _ => 5, fun _ => 0, fun _ => 1⟩)).map Sample.timestamp) ∧
      List.Sorted (fun x y : ℤ => x < y)
        ((generateInitialData 0 (fun _ => (0 : ℚ))).map Sample.timestamp)) :=
  ⟨ChronoReach.tick ⟨fun _ => 0, fun _ => 5, fun _ => 0, fun _ => 1⟩
      (ChronoReach.seed 0 _) (by decide),
    chronological_order 5 _
      (ChronoReach.tick ⟨fun _ => 0, fun _ => 5, fun _ => 0, fun _ => 1⟩
        (ChronoReach.seed 0 _) (by decide)) 0 _⟩

/-! ## The counters -/

/-- C8 (as amended): for random draws in `[0, 1)` and a previous state whose
`totalUsers` is an integer `n` with `|n| ≤ 2 ^ 52` and whose `revenue`,
`revenue - 50`, `revenue + 50` and `revenue + 100` are doubles, one tick gives
`totalUsers = prev.totalUsers + d` for an integer `-5 ≤ d ≤ 5` and
`revenue = prev.revenue + e` with `-50 ≤ e ≤ 50`; for every previous state the
new revenue lies between the rounded `revenue - 50` and the rounded
`revenue + 100 - 50`; `activeConnections` and `throughput` are the fields of
the sample appended by the same tick, and the counters have no other field. -/
theorem metrics_tick {α : Type} [LinearOrderedField α] [FloorRing α]
    (h : Host α) (hr : ∀ k, 0 ≤ h.random k ∧ h.random k < 1) (s : State α)
    (n : ℤ) (hn : s.metrics.totalUsers = (n : α)) (hnb : |n| ≤ 2 ^ 52)
    (hp : IsDouble s.metrics.revenue) (hp1 : IsDouble (s.metrics.revenue - 50))
    (hp2 : IsDouble (s.metrics.revenue + 50)) (hp3 : IsDouble (s.metrics.revenue + 100)) :
    (∃ d : ℤ, -5 ≤ d ∧ d ≤ 5 ∧
      (tick h s).metrics.totalUsers = s.metrics.totalUsers + (d : α)) ∧
    (∃ e : α, -50 ≤ e ∧ e ≤ 50 ∧ (tick h s).metrics.revenue = s.metrics.revenue + e) ∧
    (toDouble (toDouble s.metrics.revenue - 50) ≤ (tick h s).metrics.revenue ∧
      (tick h s).metrics.revenue ≤ toDouble (toDouble (s.metrics.revenue + 100) - 50)) ∧
    (tick h s).dataPoints.getLast? = some (newPoint h) ∧
    (tick h s).metrics.activeConnections = (newPoint h).connections ∧
    (tick h s).metrics.throughput = (newPoint h).throughput ∧
    (tick h s).metrics = ⟨(tick h s).metrics.totalUsers, (tick h s).metrics.revenue,
      (newPoint h).connections, (newPoint h).throughput⟩ := by
  have hbr := revenue_bracket h hr s.metrics.revenue
  refine ⟨?_, ?_, hbr, ?_, rfl, rfl, rfl⟩
  · obtain ⟨k, hk, hk0, hk1⟩ := users_draw h hr
    refine ⟨k - 5, by omega, by omega, ?_⟩
    show toDouble (toDouble (s.metrics.totalUsers + mathFloor (toDouble (h.random 6 * 10))) - 5)
      = _
    rw [hk, hn]
    have hb : |n| ≤ 4503599627370496 := by simpa using hnb
    rw [abs_le] at hb
    have e1 : (n : α) + (k : α) = ((n + k : ℤ) : α) := by push_cast; ring
    have e2 : ((n + k : ℤ) : α) - 5 = ((n + k - 5 : ℤ) : α) := by push_cast; ring
    rw [e1, toDouble_intCast _ (by rw [abs_lt]; constructor <;> norm_num <;> omega), e2,
      toDouble_intCast _ (by rw [abs_lt]; constructor <;> norm_num <;> omega)]
    push_cast
    ring
  · have hrev : (tick h s).metrics.revenue
        = toDouble (toDouble (s.metrics.revenue + toDouble (h.random 7 * 100)) - 50) := rfl
    refine ⟨(tick h s).metrics.revenue - s.metrics.revenue, ?_, ?_, by ring⟩
    · rw [hrev]
      have h1 := hbr.1
      rw [hp.1, hp1.1] at h1
      linarith
    · rw [hrev]
      have h1 := hbr.2
      rw [hp3.1, show s.metrics.revenue + 100 - 50 = s.metrics.revenue + 50 by ring, hp2.1] at h1
      linarith
  · show (appendPoint s.dataPoints (newPoint h)).getLast? = _
    unfold appendPoint
    rw [List.getLast?_append]
    rfl

/-- Witness of the counters' update: a tick in the state in which streaming
has been started, with every draw equal to `3 / 4`; the count goes from
1247832 to 1247834 and the revenue from 89432.5 to 89457.5. -/
theorem metrics_tick_witness :
    (∀ k, 0 ≤ (⟨fun _ => 3 / 4, fun _ => 0, fun _ => 0, fun _ => 1⟩ : Host ℚ).random k ∧
      (⟨fun _ => 3 / 4, fun _ => 0, fun _ => 0, fun _ => 1⟩ : Host ℚ).random k < 1) ∧
    (toggleStreaming (mount 0 (fun _ => (0 : ℚ)))).metrics.totalUsers = ((1247832 : ℤ) : ℚ) ∧
    |(1247832 : ℤ)| ≤ 2 ^ 52 ∧
    IsDouble (toggleStreaming (mount 0 (fun _ => (0 : ℚ)))).metrics.revenue ∧
    IsDouble ((toggleStreaming (mount 0 (fun _ => (0 : ℚ)))).metrics.revenue - 50) ∧
    IsDouble ((toggleStreaming (mount 0 (fun _ => (0 : ℚ)))).metrics.revenue + 50) ∧
    IsDouble ((toggleStreaming (mount 0 (fun _ => (0 : ℚ)))).metrics.revenue + 100) ∧
    ((∃ d : ℤ, -5 ≤ d ∧ d ≤ 5 ∧
        (tick (⟨fun _ => 3 / 4, fun _ => 0, fun _ => 0, fun _ => 1⟩ : Host ℚ)
        (toggleStreaming (mount 0 (fun _ => (0 : ℚ))))).metrics.totalUsers
          = (toggleStreaming (mount 0 (fun _ => (0 : ℚ)))).metrics.totalUsers + (d : ℚ)) ∧
      (∃ e : ℚ, -50 ≤ e ∧ e ≤ 50 ∧
        (tick (⟨fun _ => 3 / 4, fun _ => 0, fun _ => 0, fun _ => 1⟩ : Host ℚ)
        (toggleStreaming (mount 0 (fun _ => (0 : ℚ))))).metrics.revenue
          = (toggleStreaming (mount 0 (fun _ => (0 : ℚ)))).metrics.revenue + e) ∧
      (toDouble (toDouble (toggleStreaming (mount 0 (fun _ => (0 : ℚ)))).metrics.revenue - 50)
          ≤ (tick (⟨fun _ => 3 / 4, fun _ => 0, fun _ => 0, fun _ => 1⟩ : Host ℚ)
        (toggleStreaming (mount 0 (fun _ => (0 : ℚ))))).metrics.revenue ∧
        (tick (⟨fun _ => 3 / 4, fun _ => 0, fun _ => 0, fun _ => 1⟩ : Host ℚ)
        (toggleStreaming (mount 0 (fun _ => (0 : ℚ))))).metrics.revenue
          ≤ toDouble (toDouble ((toggleStreaming (mount 0 (fun _ => (0 : ℚ)))).metrics.revenue + 100) - 50)) ∧
      (tick (⟨fun _ => 3 / 4, fun _ => 0, fun _ => 0, fun _ => 1⟩ : Host ℚ)
        (toggleStreaming (mount 0 (fun _ => (0 : ℚ))))).dataPoints.getLast?
        = some (newPoint (⟨fun _ => 3 / 4, fun _ => 0, fun _ => 0, fun _ => 1⟩ : Host ℚ)) ∧
      (tick (⟨fun _ => 3 / 4, fun _ => 0, fun _ => 0, fun _ => 1⟩ : Host ℚ)
        (toggleStreaming (mount 0 (fun _ => (0 : ℚ))))).metrics.activeConnections
        = (newPoint (⟨fun _ => 3 / 4, fun _ => 0, fun _ => 0, fun _ => 1⟩ : Host ℚ)).connections ∧
      (tick (⟨fun _ => 3 / 4, fun _ => 0, fun _ => 0, fun _ => 1⟩ : Host ℚ)
        (toggleStreaming (mount 0 (fun _ => (0 : ℚ))))).metrics.throughput
        = (newPoint (⟨fun _ => 3 / 4, fun _ => 0, fun _ => 0, fun _ => 1⟩ : Host ℚ)).throughput ∧
      (tick (⟨fun _ => 3 / 4, fun _ => 0, fun _ => 0, fun _ => 1⟩ : Host ℚ)
        (toggleStreaming (mount 0 (fun _ => (0 : ℚ))))).metrics
        = ⟨(tick (⟨fun _ => 3 / 4, fun _ => 0, fun _ => 0, fun _ => 1⟩ : Host ℚ)
        (toggleStreaming (mount 0 (fun _ => (0 : ℚ))))).metrics.totalUsers,
          (tick (⟨fun _ => 3 / 4, fun _ => 0, fun _ => 0, fun _ => 1⟩ : Host ℚ)
        (toggleStreaming (mount 0 (fun _ => (0 : ℚ))))).metrics.revenue,
          (newPoint (⟨fun _ => 3 / 4, fun _ => 0, fun _ => 0, fun _ => 1⟩ : Host ℚ)).connections,
          (newPoint (⟨fun _ => 3 / 4, fun _ => 0, fun _ => 0, fun _ => 1⟩ : Host ℚ)).throughput⟩) ∧
    (tick (⟨fun _ => 3 / 4, fun _ => 0, fun _ => 0, fun _ => 1⟩ : Host ℚ)
        (toggleStreaming (mount 0 (fun _ => (0 : ℚ))))).metrics.totalUsers = 1247834 ∧
    (tick (⟨fun _ => 3 / 4, fun _ => 0, fun _ => 0, fun _ => 1⟩ : Host ℚ)
        (toggleStreaming (mount 0 (fun _ => (0 : ℚ))))).metrics.revenue = 178915 / 2 :=
  have hr : ∀ k, 0 ≤ (⟨fun _ => 3 / 4, fun _ => 0, fun _ => 0, fun _ => 1⟩ : Host ℚ).random k ∧
      (⟨fun _ => 3 / 4, fun _ => 0, fun _ => 0, fun _ => 1⟩ : Host ℚ).random k < 1 :=
    fun _ => ⟨by norm_num, by norm_num⟩
  have hn : (toggleStreaming (mount 0 (fun _ => (0 : ℚ)))).metrics.totalUsers = ((1247832 : ℤ) : ℚ) := by
    show (1247832 : ℚ) = ((1247832 : ℤ) : ℚ)
    norm_num
  have hnb : |(1247832 : ℤ)| ≤ 2 ^ 52 := by norm_num [abs_of_pos]
  have hp : IsDouble (toggleStreaming (mount 0 (fun _ => (0 : ℚ)))).metrics.revenue :=
    isDouble_of_binade (178865 / 2 : ℚ) 16 (by norm_num) (by norm_num)
      (by norm_num [abs_of_pos]) (by norm_num [abs_of_pos]) (178865 * 2 ^ 35) (by norm_num)
  have hp1 : IsDouble ((toggleStreaming (mount 0 (fun _ => (0 : ℚ)))).metrics.revenue - 50) :=
    isDouble_of_binade (178865 / 2 - 50 : ℚ) 16 (by norm_num) (by norm_num)
      (by norm_num [abs_of_pos]) (by norm_num [abs_of_pos]) (178765 * 2 ^ 35) (by norm_num)
  have hp2 : IsDouble ((toggleStreaming (mount 0 (fun _ => (0 : ℚ)))).metrics.revenue + 50) :=
    isDouble_of_binade (178865 / 2 + 50 : ℚ) 16 (by norm_num) (by norm_num)
      (by norm_num [abs_of_pos]) (by norm_num [abs_of_pos]) (178965 * 2 ^ 35) (by norm_num)
  have hp3 : IsDouble ((toggleStreaming (mount 0 (fun _ => (0 : ℚ)))).metrics.revenue + 100) :=
    isDouble_of_binade (178865 / 2 + 100 : ℚ) 16 (by norm_num) (by norm_num)
      (by norm_num [abs_of_pos]) (by norm_num [abs_of_pos]) (179065 * 2 ^ 35) (by norm_num)
  ⟨hr, hn, hnb, hp, hp1, hp2, hp3,
    metrics_tick _ hr _ 1247832 hn hnb hp hp1 hp2 hp3,
    metrics_witness_users, metrics_witness_revenue⟩

/-- C8 as stated fails in double arithmetic.  From the initial counters, with
the draw `1 - 2 ^ (-52)`, the revenue increases by exactly 50.  From a revenue
of `1 + 2 ^ (-52)` with the draw 0 it decreases by more than 50, and from
`totalUsers = 2 ^ 53 + 2` with the draw `15 / 16` the count increases by 6. -/
theorem metrics_tick_counterexample :
    (tick (⟨fun _ => 1 - 1 / 2 ^ 52, fun _ => 0, fun _ => 0, fun _ => 1⟩ : Host ℚ)
        (toggleStreaming (mount 0 (fun _ => (0 : ℚ))))).metrics.revenue
      - (toggleStreaming (mount 0 (fun _ => (0 : ℚ)))).metrics.revenue = 50 ∧
    (updateMetrics (⟨fun _ => 0, fun _ => 0, fun _ => 0, fun _ => 1⟩ : Host ℚ)
        (seedPoint 0 (fun _ => 0) 0) ⟨1247832, 1 + 1 / 2 ^ 52, 15647, 2341⟩).revenue
      - (1 + 1 / 2 ^ 52) < -50 ∧
    (updateMetrics (⟨fun _ => 15 / 16, fun _ => 0, fun _ => 0, fun _ => 1⟩ : Host ℚ)
        (seedPoint 0 (fun _ => 0) 0) ⟨2 ^ 53 + 2, 178865 / 2, 15647, 2341⟩).totalUsers
      - (2 ^ 53 + 2) = 6 := by
  refine ⟨?_, ?_, ?_⟩
  · show toDouble (toDouble ((178865 / 2 : ℚ) + toDouble ((1 - 1 / 2 ^ 52) * 100)) - 50)
      - (178865 / 2 : ℚ) = 50
    have e1 : toDouble ((1 - 1 / 2 ^ 52 : ℚ) * 100) = 100 - 1 / 2 ^ 45 := by
      rw [toDouble_eq_of_binade _ 6 (by norm_num) (by norm_num [abs_of_pos])
        (by norm_num [abs_of_pos]) (100 * 2 ^ 46 - 2) (by norm_num [abs_lt])]
      norm_num
    have e2 : toDouble ((178865 / 2 : ℚ) + (100 - 1 / 2 ^ 45)) = 179065 / 2 := by
      rw [toDouble_eq_of_binade _ 16 (by norm_num) (by norm_num [abs_of_pos])
        (by norm_num [abs_of_pos]) (179065 * 2 ^ 35) (by norm_num [abs_lt])]
      norm_num
    have e3 : toDouble ((179065 / 2 : ℚ) - 50) = 178965 / 2 := by
      rw [toDouble_eq_of_binade _ 16 (by norm_num) (by norm_num [abs_of_pos])
        (by norm_num [abs_of_pos]) (178965 * 2 ^ 35) (by norm_num [abs_lt])]
      norm_num
    rw [e1, e2, e3]
    norm_num
  · show toDouble (toDouble ((1 + 1 / 2 ^ 52 : ℚ) + toDouble (0 * 100)) - 50)
      - (1 + 1 / 2 ^ 52) < -50
    have e1 : toDouble ((0 : ℚ) * 100) = 0 := by rw [zero_mul, toDouble_zero]
    have e2 : toDouble ((1 + 1 / 2 ^ 52 : ℚ) + 0) = 1 + 1 / 2 ^ 52 := by
      rw [toDouble_eq_of_binade _ 0 (by norm_num) (by norm_num [abs_of_pos])
        (by norm_num [abs_of_pos]) (2 ^ 52 + 1) (by norm_num [abs_lt])]
      norm_num
    have e3 : toDouble ((1 + 1 / 2 ^ 52 : ℚ) - 50) = -49 := by
      rw [toDouble_eq_of_binade _ 5 (by norm_num) (by norm_num [abs_of_neg])
        (by norm_num [abs_of_neg]) (-(49 * 2 ^ 47)) (by norm_num [abs_lt])]
      norm_num
    rw [e1, e2, e3]
    norm_num
  · show toDouble (toDouble ((2 ^ 53 + 2 : ℚ) + mathFloor (toDouble (15 / 16 * 10))) - 5)
      - (2 ^ 53 + 2) = 6
    have e1 : toDouble ((15 / 16 : ℚ) * 10) = 75 / 8 := by
      rw [toDouble_eq_of_binade _ 3 (by norm_num) (by norm_num [abs_of_pos])
        (by norm_num [abs_of_pos]) (75 * 2 ^ 46) (by norm_num [abs_lt])]
      norm_num
    have e2 : mathFloor (75 / 8 : ℚ) = 9 := by
      unfold mathFloor
      have : ⌊(75 / 8 : ℚ)⌋ = 9 := Int.floor_eq_iff.2 ⟨by norm_num, by norm_num⟩
      rw [this]
      norm_num
    have e3 : toDouble ((2 ^ 53 + 2 : ℚ) + 9) = 2 ^ 53 + 12 := by
      rw [toDouble_tie_of_binade _ 53 (by norm_num) (by norm_num [abs_of_pos])
        (by norm_num [abs_of_pos]) (2 ^ 52 + 5) (by norm_num)]
      norm_num
    have e4 : toDouble ((2 ^ 53 + 12 : ℚ) - 5) = 2 ^ 53 + 8 := by
      rw [toDouble_tie_of_binade _ 53 (by norm_num) (by norm_num [abs_of_pos])
        (by norm_num [abs_of_pos]) (2 ^ 52 + 3) (by norm_num)]
      norm_num
    rw [e1, e2, e3, e4]
    norm_num

/-! ## The streaming timer -/

/-- C10: in every reachable state at most one interval timer is live.  When
streaming is off no timer is live, no timer-fire step can occur, and the state
(hence the buffer and its length) is unchanged by any amount of elapsed time;
switching streaming off from a streaming state leads to such a state, and
switching it on starts exactly one timer. -/
theorem no_tick_after_stop {α : Type} [LinearOrderedField α] [FloorRing α]
    (s : State α) (hs : Reachable s) (fires : List (ℕ × Host α)) :
    s.timers.length ≤ 1 ∧
    (s.isStreaming = false →
      s.timers = [] ∧ (∀ id h, step s (Event.timerFire id h) = none) ∧
      elapse s fires = s ∧ (elapse s fires).dataPoints.length = s.dataPoints.length ∧
      (toggleStreaming s).timers.length = 1) ∧
    (s.isStreaming = true →
      (toggleStreaming s).isStreaming = false ∧ (toggleStreaming s).timers = [] ∧
      (∀ id h, step (toggleStreaming s) (Event.timerFire id h) = none) ∧
      elapse (toggleStreaming s) fires = toggleStreaming s ∧
      (toggleStreaming s).dataPoints = s.dataPoints) := by
  have hi := inv_reachable s hs
  have hi1 := inv_toggleStreaming s hi
  refine ⟨?_, ?_, ?_⟩
  · cases hst : s.isStreaming with
    | true =>
      obtain ⟨id, _, ht⟩ := hi.1 hst
      rw [ht]; simp
    | false => rw [hi.2.1 hst]; simp
  · intro hst
    have ht := hi.2.1 hst
    have hon : (toggleStreaming s).isStreaming = true := by
      simp [toggleStreaming, effectBody, effectCleanup, hst]
    obtain ⟨id, _, ht1⟩ := hi1.1 hon
    refine ⟨ht, step_timerFire_none s ht, elapse_of_no_timer fires s ht, ?_, ?_⟩
    · rw [elapse_of_no_timer fires s ht]
    · rw [ht1]; rfl
  · intro hst
    have hoff : (toggleStreaming s).isStreaming = false := by
      simp [toggleStreaming, effectBody, effectCleanup, hst]
    have ht := hi1.2.1 hoff
    refine ⟨hoff, ht, step_timerFire_none _ ht, elapse_of_no_timer fires _ ht, ?_⟩
    simp [toggleStreaming, effectBody, effectCleanup, hst]

/-- Witness of the timer property, at two reachable states.  In the first
streaming has been started: timer 1 is live, and stopping clears it.  In the
second streaming has been started and then stopped: no timer is live, and timer
1 coming due twice changes nothing. -/
theorem no_tick_after_stop_witness :
    Reachable (toggleStreaming (mount 0 (fun _ => (0 : ℚ)))) ∧
    Reachable (toggleStreaming (toggleStreaming (mount 0 (fun _ => (0 : ℚ))))) ∧
    (toggleStreaming (mount 0 (fun _ => (0 : ℚ)))).isStreaming = true ∧
    (toggleStreaming (mount 0 (fun _ => (0 : ℚ)))).timers = [1] ∧
    (toggleStreaming (mount 0 (fun _ => (0 : ℚ)))).timers.length ≤ 1 ∧
    ((toggleStreaming (toggleStreaming (mount 0 (fun _ => (0 : ℚ))))).isStreaming = false ∧
      (toggleStreaming (toggleStreaming (mount 0 (fun _ => (0 : ℚ))))).timers = [] ∧
      (∀ id h, step (toggleStreaming (toggleStreaming (mount 0 (fun _ => (0 : ℚ))))) (Event.timerFire id h) = none) ∧
      elapse (toggleStreaming (toggleStreaming (mount 0 (fun _ => (0 : ℚ)))))
          [((1 : ℕ), (⟨fun _ => 0, fun _ => 1000, fun _ => 0, fun _ => 1⟩ : Host ℚ)),
            (1, ⟨fun _ => 0, fun _ => 2000, fun _ => 0, fun _ => 1⟩)]
        = (toggleStreaming (toggleStreaming (mount 0 (fun _ => (0 : ℚ))))) ∧
      (toggleStreaming (toggleStreaming (mount 0 (fun _ => (0 : ℚ))))).dataPoints
        = (toggleStreaming (mount 0 (fun _ => (0 : ℚ)))).dataPoints) ∧
    (toggleStreaming (toggleStreaming (mount 0 (fun _ => (0 : ℚ))))).timers.length ≤ 1 ∧
    ((toggleStreaming (toggleStreaming (mount 0 (fun _ => (0 : ℚ))))).timers = [] ∧
      (∀ id h, step (toggleStreaming (toggleStreaming (mount 0 (fun _ => (0 : ℚ))))) (Event.timerFire id h) = none) ∧
      elapse (toggleStreaming (toggleStreaming (mount 0 (fun _ => (0 : ℚ)))))
          [((1 : ℕ), (⟨fun _ => 0, fun _ => 1000, fun _ => 0, fun _ => 1⟩ : Host ℚ)),
            (1, ⟨fun _ => 0, fun _ => 2000, fun _ => 0, fun _ => 1⟩)]
        = (toggleStreaming (toggleStreaming (mount 0 (fun _ => (0 : ℚ))))) ∧
      (elapse (toggleStreaming (toggleStreaming (mount 0 (fun _ => (0 : ℚ)))))
          [((1 : ℕ), (⟨fun _ => 0, fun _ => 1000, fun _ => 0, fun _ => 1⟩ : Host ℚ)),
            (1, ⟨fun _ => 0, fun _ => 2000, fun _ => 0, fun _ => 1⟩)]).dataPoints.length
        = (toggleStreaming (toggleStreaming (mount 0 (fun _ => (0 : ℚ))))).dataPoints.length ∧
      (toggleStreaming (toggleStreaming (toggleStreaming (mount 0 (fun _ => (0 : ℚ)))))).timers.length = 1) :=
  have hs1 : Reachable (toggleStreaming (mount 0 (fun _ => (0 : ℚ)))) :=
    Or.inr (Running.step Event.toggle (Running.mount 0 _) rfl)
  have hs2 : Reachable (toggleStreaming (toggleStreaming (mount 0 (fun _ => (0 : ℚ))))) :=
    Or.inr (Running.step Event.toggle
      (Running.step Event.toggle (Running.mount 0 _) rfl) rfl)
  ⟨hs1, hs2, rfl, rfl, (no_tick_after_stop _ hs1 []).1,
    (no_tick_after_stop _ hs1 _).2.2 rfl,
    (no_tick_after_stop _ hs2 []).1,
    (no_tick_after_stop _ hs2 _).2.1 rfl⟩

/-! ## The chart window -/

/-- C3: for every buffer `b` and every `count ≥ 1`, the samples of
`window count` are the last `min count |b|` elements of `b` in their order,
each row carrying the fields of its sample unchanged.  So the window of 60 on a
buffer of 1000 samples is elements 941..1000, a buffer no longer than `count`
is returned whole, and the empty buffer gives the empty window. -/
theorem window_is_suffix {α : Type} (fmt : ℤ → String) (count : ℤ) (hc : 1 ≤ count)
    (b : List (Sample α)) :
    (window fmt count b).map ChartRow.toSample = lastN (min count.toNat b.length) b ∧
    (window fmt count b).length = min count.toNat b.length ∧
    (∀ row ∈ window fmt count b, row.time = fmt row.timestamp) ∧
    (b.length = 1000 → (window fmt 60 b).map ChartRow.toSample = b.drop 940) ∧
    ((b.length : ℤ) ≤ count → (window fmt count b).map ChartRow.toSample = b) ∧
    window fmt count ([] : List (Sample α)) = [] := by
  have hcn : count = ((count.toNat : ℕ) : ℤ) := by omega
  have hpos : 0 < count.toNat := by omega
  have key : ∀ (c : ℕ), 0 < c → ∀ l : List (Sample α),
      (window fmt (c : ℤ) l).map ChartRow.toSample = lastN c l :=
    fun c hc0 l => window_map_toSample fmt c hc0 l
  have hmap : (window fmt count b).map ChartRow.toSample = lastN count.toNat b := by
    have h := key count.toNat hpos b
    rw [← hcn] at h
    exact h
  refine ⟨by rw [lastN_min]; exact hmap, ?_, ?_, ?_, ?_, rfl⟩
  · have h := congrArg List.length hmap
    rw [List.length_map, lastN_length] at h
    exact h
  · intro row hrow
    unfold window at hrow
    split at hrow
    · exact absurd hrow (List.not_mem_nil _)
    · obtain ⟨p, _, hp⟩ := List.mem_map.1 hrow
      subst hp
      rfl
  · intro hb
    have h := key 60 (by decide) b
    rw [show ((60 : ℕ) : ℤ) = 60 from rfl] at h
    rw [h]
    unfold lastN
    rw [hb]
  · intro hb
    rw [hmap]
    exact lastN_of_length_le _ _ (by omega)

/-- Witness of `window_is_suffix`: the window of 2 on a buffer of three
samples. -/
theorem window_is_suffix_witness :
    (1 : ℤ) ≤ 2 ∧
    ((window (fun _ => "") 2
          [seedPoint 0 (fun _ => (0 : ℚ)) 0, seedPoint 0 (fun _ => 0) 1,
            seedPoint 0 (fun _ => 0) 2]).map ChartRow.toSample
        = lastN (min (2 : ℤ).toNat
            [seedPoint 0 (fun _ => (0 : ℚ)) 0, seedPoint 0 (fun _ => 0) 1,
              seedPoint 0 (fun _ => 0) 2].length)
            [seedPoint 0 (fun _ => (0 : ℚ)) 0, seedPoint 0 (fun _ => 0) 1,
              seedPoint 0 (fun _ => 0) 2] ∧
      (window (fun _ => "") 2
          [seedPoint 0 (fun _ => (0 : ℚ)) 0, seedPoint 0 (fun _ => 0) 1,
            seedPoint 0 (fun _ => 0) 2]).length
        = min (2 : ℤ).toNat
            [seedPoint 0 (fun _ => (0 : ℚ)) 0, seedPoint 0 (fun _ => 0) 1,
              seedPoint 0 (fun _ => 0) 2].length ∧
      (∀ row ∈ window (fun _ => "") 2
          [seedPoint 0 (fun _ => (0 : ℚ)) 0, seedPoint 0 (fun _ => 0) 1,
            seedPoint 0 (fun _ => 0) 2], row.time = (fun _ => "") row.timestamp) ∧
      ([seedPoint 0 (fun _ => (0 : ℚ)) 0, seedPoint 0 (fun _ => 0) 1,
          seedPoint 0 (fun _ => 0) 2].length = 1000 →
        (window (fun _ => "") 60
            [seedPoint 0 (fun _ => (0 : ℚ)) 0, seedPoint 0 (fun _ => 0) 1,
              seedPoint 0 (fun _ => 0) 2]).map ChartRow.toSample
          = [seedPoint 0 (fun _ => (0 : ℚ)) 0, seedPoint 0 (fun _ => 0) 1,
              seedPoint 0 (fun _ => 0) 2].drop 940) ∧
      ((([seedPoint 0 (fun _ => (0 : ℚ)) 0, seedPoint 0 (fun _ => 0) 1,
          seedPoint 0 (fun _ => 0) 2].length : ℕ) : ℤ) ≤ 2 →
        (window (fun _ => "") 2
            [seedPoint 0 (fun _ => (0 : ℚ)) 0, seedPoint 0 (fun _ => 0) 1,
              seedPoint 0 (fun _ => 0) 2]).map ChartRow.toSample
          = [seedPoint 0 (fun _ => (0 : ℚ)) 0, seedPoint 0 (fun _ => 0) 1,
              seedPoint 0 (fun _ => 0) 2]) ∧
      window (fun _ => "") 2 ([] : List (Sample ℚ)) = []) :=
  ⟨by decide, window_is_suffix (fun _ => "") 2 (by decide) _⟩

/-- C9: the timeframes `1h`, `6h` and `24h` use the counts 60, 360 and 1440,
so for every buffer `b` the chart window has `min 60 |b|`, `min 360 |b|` and
`min 1440 |b|` rows, whose samples are the corresponding suffix of `b` in
order. -/
theorem timeframe_mapping {α : Type} (fmt : ℤ → String) (b : List (Sample α)) :
    timeframeCount "1h" = 60 ∧ timeframeCount "6h" = 360 ∧ timeframeCount "24h" = 1440 ∧
    ((chartData fmt b "1h").length = min 60 b.length ∧
      (chartData fmt b "1h").map ChartRow.toSample = lastN (min 60 b.length) b) ∧
    ((chartData fmt b "6h").length = min 360 b.length ∧
      (chartData fmt b "6h").map ChartRow.toSample = lastN (min 360 b.length) b) ∧
    ((chartData fmt b "24h").length = min 1440 b.length ∧
      (chartData fmt b "24h").map ChartRow.toSample = lastN (min 1440 b.length) b) := by
  have key : ∀ (c : ℕ), 0 < c →
      (window fmt (c : ℤ) b).map ChartRow.toSample = lastN (min c b.length) b := by
    intro c hc0
    rw [lastN_min]
    exact window_map_toSample fmt c hc0 b
  have len : ∀ (c : ℕ), 0 < c → (window fmt (c : ℤ) b).length = min c b.length := by
    intro c hc0
    have h := congrArg List.length (key c hc0)
    rw [List.length_map, lastN_length] at h
    omega
  have h1 : timeframeCount "1h" = ((60 : ℕ) : ℤ) := by decide
  have h2 : timeframeCount "6h" = ((360 : ℕ) : ℤ) := by decide
  have h3 : timeframeCount "24h" = ((1440 : ℕ) : ℤ) := by decide
  refine ⟨h1, h2, h3, ⟨?_, ?_⟩, ⟨?_, ?_⟩, ⟨?_, ?_⟩⟩
  · unfold chartData; rw [h1]; exact len 60 (by decide)
  · unfold chartData; rw [h1]; exact key 60 (by decide)
  · unfold chartData; rw [h2]; exact len 360 (by decide)
  · unfold chartData; rw [h2]; exact key 360 (by decide)
  · unfold chartData; rw [h3]; exact len 1440 (by decide)
  · unfold chartData; rw [h3]; exact key 1440 (by decide)

end Dashboard
